import Mathlib

/-
  Verification development for the simulation of two decision models
  (simulate_models.py): an episodic memory-sampling model and a
  feature-based value-summation model, together with the stimulus/game
  generation and the trial orchestration loop.

  Modelling conventions:
  * Real-valued quantities of the program (times, rewards, noise, random
    draws) are modelled as rationals; integer reward values as integers.
  * Randomness is passed in explicitly: uniform draws and Gaussian draws
    are streams of rationals, a Gaussian draw normal(0, sigma) is modelled
    as sigma * z for an input standard draw z, shuffles take the shuffled
    list (or the chosen alternative) as an input, and randint results are
    input tapes of integers.
  * The two unbounded rejection-sampling loops of the value-set generator
    are modelled with an input tape of integer draws plus an iteration
    budget ("fuel"); a result of none means the Python loop would still be
    running (or drawing) past the supplied tape/fuel, a result of some vs
    means the loop returns vs.
  * Python dicts are modelled as association lists in insertion order.
-/

set_option maxRecDepth 10000

/-! ## Stimulus catalog (source: get_items_for_games) -/
/-- Item sets of configuration 1 (source: get_items_for_games, curr_stims = 1). -/
def item_set_1 : List (List String) :=
  [
   ["Food_Blue", "Food_Green", "Food_Red", "Object_Blue", "Object_Green", "Scene_Blue"],
   ["Scene_Yellow", "Scene_Green", "Scene_Blue", "Food_Yellow", "Food_Green", "Animal_Yellow"],
   ["Object_Red", "Object_Green", "Object_Yellow", "Animal_Red", "Animal_Green", "Scene_Red"],
   ["Object_Blue", "Object_Yellow", "Object_Red", "Animal_Blue", "Animal_Yellow", "Food_Blue"],
   ["Scene_Green", "Scene_Blue", "Scene_Yellow", "Animal_Green", "Animal_Blue", "Object_Green"],
   ["Food_Red", "Food_Yellow", "Food_Blue", "Animal_Red", "Animal_Yellow", "Scene_Red"],
   ["Scene_Yellow", "Scene_Green", "Scene_Red", "Food_Yellow", "Food_Green", "Object_Yellow"],
   ["Animal_Red", "Animal_Blue", "Animal_Green", "Object_Red", "Object_Blue", "Food_Red"]
  ]

/-- Decision-option sets of configuration 1 (source: get_items_for_games, curr_stims = 1). -/
def dec_set_1 : List (List String) :=
  [
   ["Object", "Green", "Red", "Scene", "Blue", "Food"],
   ["Scene", "Food", "Animal", "Yellow", "Blue", "Green"],
   ["Red", "Green", "Object", "Yellow", "Animal", "Scene"],
   ["Food", "Yellow", "Animal", "Red", "Blue", "Object"],
   ["Animal", "Blue", "Scene", "Green", "Yellow", "Object"],
   ["Yellow", "Animal", "Food", "Scene", "Blue", "Red"],
   ["Food", "Green", "Yellow", "Scene", "Object", "Red"],
   ["Red", "Object", "Green", "Blue", "Animal", "Food"]
  ]

/-- Item sets of configuration 2 (source: get_items_for_games, curr_stims = 2). -/
def item_set_2 : List (List String) :=
  [
   ["Object_Blue", "Object_Green", "Object_Yellow", "Animal_Blue", "Animal_Green", "Food_Blue"],
   ["Scene_Red", "Scene_Blue", "Scene_Green", "Object_Red", "Object_Blue", "Food_Red"],
   ["Food_Yellow", "Food_Red", "Food_Green", "Animal_Yellow", "Animal_Red", "Scene_Yellow"],
   ["Animal_Yellow", "Animal_Blue", "Animal_Red", "Scene_Yellow", "Scene_Blue", "Object_Yellow"],
   ["Food_Green", "Food_Yellow", "Food_Blue", "Animal_Green", "Animal_Yellow", "Scene_Green"],
   ["Food_Green", "Food_Red", "Food_Yellow", "Scene_Green", "Scene_Red", "Object_Green"],
   ["Scene_Red", "Scene_Yellow", "Scene_Blue", "Object_Red", "Object_Yellow", "Animal_Red"],
   ["Object_Blue", "Object_Green", "Object_Red", "Animal_Blue", "Animal_Green", "Food_Blue"]
  ]

/-- Decision-option sets of configuration 2 (source: get_items_for_games, curr_stims = 2). -/
def dec_set_2 : List (List String) :=
  [
   ["Object", "Blue", "Yellow", "Animal", "Food", "Green"],
   ["Food", "Red", "Green", "Blue", "Object", "Scene"],
   ["Scene", "Food", "Red", "Green", "Yellow", "Animal"],
   ["Object", "Animal", "Scene", "Yellow", "Red", "Blue"],
   ["Scene", "Animal", "Green", "Blue", "Food", "Yellow"],
   ["Green", "Scene", "Yellow", "Red", "Food", "Object"],
   ["Scene", "Yellow", "Red", "Object", "Blue", "Animal"],
   ["Food", "Object", "Blue", "Green", "Red", "Animal"]
  ]

/-- Item sets of configuration 3 (source: get_items_for_games, curr_stims = 3). -/
def item_set_3 : List (List String) :=
  [
   ["Animal_Yellow", "Animal_Blue", "Animal_Green", "Scene_Yellow", "Scene_Blue", "Food_Yellow"],
   ["Food_Green", "Food_Blue", "Food_Red", "Object_Green", "Object_Blue", "Scene_Green"],
   ["Scene_Red", "Scene_Yellow", "Scene_Blue", "Animal_Red", "Animal_Yellow", "Object_Red"],
   ["Food_Red", "Food_Yellow", "Food_Green", "Object_Red", "Object_Yellow", "Animal_Red"],
   ["Animal_Green", "Animal_Red", "Animal_Blue", "Scene_Green", "Scene_Red", "Object_Green"],
   ["Food_Green", "Food_Red", "Food_Yellow", "Scene_Green", "Scene_Red", "Animal_Green"],
   ["Object_Blue", "Object_Yellow", "Object_Green", "Scene_Blue", "Scene_Yellow", "Food_Blue"],
   ["Object_Blue", "Object_Yellow", "Object_Red", "Animal_Blue", "Animal_Yellow", "Food_Blue"]
  ]

/-- Decision-option sets of configuration 3 (source: get_items_for_games, curr_stims = 3). -/
def dec_set_3 : List (List String) :=
  [
   ["Animal", "Blue", "Yellow", "Scene", "Green", "Food"],
   ["Food", "Scene", "Blue", "Red", "Green", "Object"],
   ["Object", "Blue", "Yellow", "Animal", "Red", "Scene"],
   ["Animal", "Red", "Object", "Yellow", "Green", "Food"],
   ["Red", "Object", "Green", "Scene", "Blue", "Animal"],
   ["Green", "Food", "Red", "Yellow", "Scene", "Animal"],
   ["Scene", "Yellow", "Food", "Blue", "Green", "Object"],
   ["Blue", "Object", "Yellow", "Animal", "Food", "Red"]
  ]

/-- Item sets of configuration 4 (source: get_items_for_games, curr_stims = 4). -/
def item_set_4 : List (List String) :=
  [
   ["Object_Yellow", "Object_Red", "Object_Green", "Animal_Yellow", "Animal_Red", "Food_Yellow"],
   ["Scene_Blue", "Scene_Yellow", "Scene_Green", "Food_Blue", "Food_Yellow", "Object_Blue"],
   ["Food_Green", "Food_Red", "Food_Blue", "Scene_Green", "Scene_Red", "Animal_Green"],
   ["Animal_Yellow", "Animal_Blue", "Animal_Red", "Scene_Yellow", "Scene_Blue", "Object_Yellow"],
   ["Object_Green", "Object_Blue", "Object_Yellow", "Animal_Green", "Animal_Blue", "Food_Green"],
   ["Scene_Red", "Scene_Blue", "Scene_Yellow", "Food_Red", "Food_Blue", "Object_Red"],
   ["Object_Green", "Object_Blue", "Object_Red", "Animal_Green", "Animal_Blue", "Scene_Green"],
   ["Food_Red", "Food_Yellow", "Food_Green", "Animal_Red", "Animal_Yellow", "Scene_Red"]
  ]

/-- Decision-option sets of configuration 4 (source: get_items_for_games, curr_stims = 4). -/
def dec_set_4 : List (List String) :=
  [
   ["Animal", "Green", "Yellow", "Object", "Red", "Food"],
   ["Blue", "Yellow", "Green", "Object", "Food", "Scene"],
   ["Red", "Animal", "Scene", "Food", "Blue", "Green"],
   ["Object", "Red", "Yellow", "Scene", "Animal", "Blue"],
   ["Green", "Object", "Food", "Animal", "Blue", "Yellow"],
   ["Food", "Object", "Yellow", "Blue", "Red", "Scene"],
   ["Object", "Red", "Scene", "Green", "Blue", "Animal"],
   ["Green", "Animal", "Scene", "Food", "Yellow", "Red"]
  ]

/-- Item sets of configuration 5 (source: get_items_for_games, curr_stims = 5). -/
def item_set_5 : List (List String) :=
  [
   ["Scene_Blue", "Scene_Yellow", "Scene_Red", "Animal_Blue", "Animal_Yellow", "Food_Blue"],
   ["Food_Yellow", "Food_Green", "Food_Red", "Scene_Yellow", "Scene_Green", "Object_Yellow"],
   ["Animal_Yellow", "Animal_Blue", "Animal_Green", "Object_Yellow", "Object_Blue", "Food_Yellow"],
   ["Object_Red", "Object_Green", "Object_Blue", "Animal_Red", "Animal_Green", "Scene_Red"],
   ["Object_Green", "Object_Red", "Object_Yellow", "Scene_Green", "Scene_Red", "Animal_Green"],
   ["Food_Blue", "Food_Red", "Food_Green", "Animal_Blue", "Animal_Red", "Scene_Blue"],
   ["Scene_Green", "Scene_Blue", "Scene_Yellow", "Object_Green", "Object_Blue", "Food_Green"],
   ["Food_Red", "Food_Yellow", "Food_Blue", "Animal_Red", "Animal_Yellow", "Object_Red"]
  ]

/-- Decision-option sets of configuration 5 (source: get_items_for_games, curr_stims = 5). -/
def dec_set_5 : List (List String) :=
  [
   ["Scene", "Red", "Food", "Blue", "Animal", "Yellow"],
   ["Red", "Scene", "Food", "Yellow", "Object", "Green"],
   ["Blue", "Green", "Animal", "Yellow", "Food", "Object"],
   ["Animal", "Object", "Blue", "Scene", "Green", "Red"],
   ["Green", "Red", "Yellow", "Animal", "Object", "Scene"],
   ["Animal", "Red", "Food", "Scene", "Green", "Blue"],
   ["Food", "Blue", "Green", "Object", "Scene", "Yellow"],
   ["Animal", "Food", "Blue", "Object", "Red", "Yellow"]
  ]
/-- Accessor for the per-configuration item sets: `full_item_set` as selected by
the `curr_stims` draw (`random.randint(1, 5)`) in `get_items_for_games`. A value
of `curr_stims` outside 1..5 leaves the Python variable unbound (a crash);
here it is mapped to `[]` and excluded by hypothesis in every theorem. -/
def full_item_set : ℕ → List (List String)
  | 1 => item_set_1
  | 2 => item_set_2
  | 3 => item_set_3
  | 4 => item_set_4
  | 5 => item_set_5
  | _ => []

/-- Accessor for the per-configuration decision-option sets (`full_dec_set`). -/
def full_dec_set : ℕ → List (List String)
  | 1 => dec_set_1
  | 2 => dec_set_2
  | 3 => dec_set_3
  | 4 => dec_set_4
  | 5 => dec_set_5
  | _ => []

/-! ## Value Set Generator (source: generate_values_set, generate_random_sub_array,
is_valid_values_set) -/

/-- Inner loop of `generate_random_sub_array`: read draws from the tape of
`random.randint(-2, 2)` results, skip zero draws, and collect `n` accepted
values (the Python code appends; the accumulator is reversed at the end).
Returns the collected values together with the unconsumed tape, or `none`
if the tape runs out first. -/
def genSubArrayAux : List ℤ → ℕ → List ℤ → Option (List ℤ × List ℤ)
  | rest, 0, acc => some (acc.reverse, rest)
  | [], _ + 1, _ => none
  | d :: ds, n + 1, acc =>
      if d = 0 then genSubArrayAux ds (n + 1) acc
      else genSubArrayAux ds n (d :: acc)

/-- Source `generate_random_sub_array`: draw `num_values` nonzero integers
between -2 and 2 from the draw tape. -/
def generate_random_sub_array (tape : List ℤ) (num_values : ℕ) :
    Option (List ℤ × List ℤ) :=
  genSubArrayAux tape num_values []

/-- The six partial sums checked by `is_valid_values_set` for `num_values = 6`:
`sum(values_set[0:3])`, `sum(values_set[3:5])`, `values_set[5]`,
`values_set[0] + values_set[3] + values_set[5]`, `values_set[1] + values_set[4]`,
`values_set[2]` (in source order). -/
def check_sums (values_set : List ℤ) : List ℤ :=
  [(values_set.take 3).sum,
   ((values_set.drop 3).take 2).sum,
   values_set.getD 5 0,
   values_set.getD 0 0 + values_set.getD 3 0 + values_set.getD 5 0,
   values_set.getD 1 0 + values_set.getD 4 0,
   values_set.getD 2 0]

/-- Source `is_valid_values_set`: at least half the entries positive and at
least half negative (Python compares the counts against `num_values / 2` with
true division, i.e. `count * 2 < num_values`), and for `num_values = 6` the
three partial-sum conditions; any other `num_values` is rejected. -/
def is_valid_values_set (values_set : List ℤ) (num_values : ℕ) : Bool :=
  let positive_count := (values_set.filter (fun v => decide (0 < v))).length
  let negative_count := (values_set.filter (fun v => decide (v < 0))).length
  if positive_count * 2 < num_values ∨ negative_count * 2 < num_values then
    false
  else if num_values = 6 then
    ((check_sums values_set).any (fun s => decide (s < 0))) &&
    ((check_sums values_set).any (fun s => decide (0 < s))) &&
    ((check_sums values_set).all (fun s => decide (s ≠ 0)))
  else false

/-- Source `generate_values_set`: rejection sampling; repeatedly draw a
candidate sub-array and return the first one accepted by
`is_valid_values_set`. The Python loop is unbounded; `fuel` bounds how many
candidate draws this model is allowed to inspect, and `none` means the loop
is still running after `fuel` candidates (or the draw tape ran out). -/
def generate_values_set : ℕ → List ℤ → ℕ → Option (List ℤ)
  | 0, _, _ => none
  | fuel + 1, tape, num_values =>
    match generate_random_sub_array tape num_values with
    | none => none
    | some (values_set, rest) =>
      if is_valid_values_set values_set num_values then some values_set
      else generate_values_set fuel rest num_values

/-! ## Game Assembler (source: create_game, initialize_games) -/

/-- A game record: the four fields stored by `create_game`. -/
structure Game where
  Pairs : List String
  Values : List ℤ
  Options : List String
  Multiplier : List String
deriving Inhabited, DecidableEq

/-- Source `create_game`: a single table entry, keyed by the stringified
game number. -/
def create_game (game_number : ℕ) (items_set : List String) (values_set : List ℤ)
    (option_set : List String) (multiplier : List String) : String × Game :=
  (toString game_number,
   { Pairs := items_set, Values := values_set,
     Options := option_set, Multiplier := multiplier })

/-- The four color words filtered out of the options when the multiplier axis
is `Category`. -/
def color_words : List String := ["Red", "Yellow", "Blue", "Green"]

/-- The four category words filtered out of the options when the multiplier
axis is `Color`. -/
def category_words : List String := ["Food", "Animal", "Object", "Scene"]

/-- The multiplier axis list before shuffling (`multiplier_list` in
`initialize_games`, with the per-game singleton lists flattened: each entry
is the axis name later extended by the timing word). -/
def multiplier_list_base : List String :=
  ["Category", "Category", "Color", "Color", "Category", "Category", "Color", "Color"]

/-- First of the two complementary timing sequences (`multiplier_time[0]`). -/
def multiplier_time_1 : List String :=
  ["Before", "After", "Before", "After", "Before", "After", "Before", "After"]

/-- Second of the two complementary timing sequences (`multiplier_time[1]`). -/
def multiplier_time_2 : List String :=
  ["After", "Before", "After", "Before", "After", "Before", "After", "Before"]

/-- Option-list selection in `initialize_games`: filter the four color words
out of the decision row when the game's multiplier axis is `Category`, else
filter the four category words. -/
def option_list_for (axis : String) (dec_row : List String) : List String :=
  if axis = "Category" then dec_row.filter (fun w => !(color_words.contains w))
  else dec_row.filter (fun w => !(category_words.contains w))

/-- One iteration of the game-construction loop in `initialize_games` for game
number `i` (1-based): pick the axis and timing at position `i - 1` of the
shuffled lists, build the option list, generate a value set from the `i`-th
draw tape, and package everything with `create_game`. -/
def mkGame (curr_stims : ℕ) (mults mtime : List String) (tapes : List (List ℤ))
    (fuel : ℕ) (i : ℕ) : Option (String × Game) :=
  let axis := mults.getD (i - 1) ""
  let curr_mult := [axis, mtime.getD (i - 1) ""]
  let option_list := option_list_for axis ((full_dec_set curr_stims).getD (i - 1) [])
  (generate_values_set fuel (tapes.getD (i - 1) []) 6).map (fun values_set =>
    create_game i ((full_item_set curr_stims).getD (i - 1) []) values_set
      option_list curr_mult)

/-- Collect a list of optional results, failing if any fails. -/
def seqOption {α : Type} (f : ℕ → Option α) : List ℕ → Option (List α)
  | [] => some []
  | i :: is =>
    match f i, seqOption f is with
    | some a, some as => some (a :: as)
    | _, _ => none

/-- Source `initialize_games`: build games 1..`n_games` into a table (modelled
as an association list from the stringified game number, preserving the
`games_object` insertion order). `curr_stims` is the configuration draw of
`get_items_for_games`, `mults` the shuffled multiplier axis list, `mtime` the
chosen timing sequence, `tapes` the per-game integer draw tapes and `fuel` the
rejection-sampling budget. -/
def initGames (n_games curr_stims : ℕ) (mults mtime : List String)
    (tapes : List (List ℤ)) (fuel : ℕ) : Option (List (String × Game)) :=
  seqOption (mkGame curr_stims mults mtime tapes fuel)
    ((List.range n_games).map (· + 1))
/-! ## Episodic Decision Model (source: class EpisodicModel) -/

/-- A stored episode: a feature pair (item type, item color) and a reward. -/
structure Episode where
  item_features : String × String
  reward : ℚ
deriving Inhabited, DecidableEq

/-- Python `s in pair` membership for a 2-tuple of strings. -/
def strIn (s : String) (pair : String × String) : Bool :=
  s == pair.1 || s == pair.2

/-- The match test of `EpisodicModel.decide`:
`offer_feature[0] in episode.item_features or offer_feature[1] in episode.item_features`. -/
def offerMatches (offer_feature feats : String × String) : Bool :=
  strIn offer_feature.1 feats || strIn offer_feature.2 feats

/-- The episodic model's parameters and episode store. -/
structure EpisodicModel where
  non_decision_time : ℚ
  recall_time : ℚ
  recall_noise : ℚ
  p_stop : ℚ
  max_decision_time : ℚ
  episodes : List Episode
deriving Inhabited

/-- Source `EpisodicModel.encode`: append an episode. -/
def EpisodicModel.encode (m : EpisodicModel) (item_features : String × String)
    (reward : ℚ) : EpisodicModel :=
  { m with episodes := m.episodes ++ [{ item_features := item_features, reward := reward }] }

/-- The recall loop of `EpisodicModel.decide`, iterating over the drawn recall
order. State: `t` indexes the stream of uniform stop draws (one consumed per
iteration), `j` indexes the stream of standard Gaussian draws (one consumed
per matching committed recall; `normal(0, recall_noise)` is modelled as
`recall_noise * noiseDraw j`), then elapsed time, recall count and summed
value. Checks in source order: the stop check, then the time check
(`elapsed_time + next_recall_time > max_decision_time`), then the commit. -/
def EpisodicModel.decideLoop (m : EpisodicModel) (offer_feature : String × String)
    (stopDraw noiseDraw : ℕ → ℚ) :
    List ℕ → ℕ → ℕ → ℚ → ℕ → ℚ → ℚ × ℕ × ℚ
  | [], _, _, elapsed_time, n_recalled, summed_value =>
      (elapsed_time, n_recalled, summed_value)
  | idx :: rest, t, j, elapsed_time, n_recalled, summed_value =>
    if stopDraw t < m.p_stop * ((n_recalled : ℚ) + 1) then
      (elapsed_time, n_recalled, summed_value)
    else if m.max_decision_time < elapsed_time + m.recall_time then
      (elapsed_time, n_recalled, summed_value)
    else
      let episode := m.episodes.getD idx default
      if offerMatches offer_feature episode.item_features then
        m.decideLoop offer_feature stopDraw noiseDraw rest (t + 1) (j + 1)
          (elapsed_time + m.recall_time) (n_recalled + 1)
          (summed_value + (episode.reward + m.recall_noise * noiseDraw j))
      else
        m.decideLoop offer_feature stopDraw noiseDraw rest (t + 1) j
          (elapsed_time + m.recall_time) (n_recalled + 1) summed_value

/-- Source `EpisodicModel.decide`: run the recall loop over the drawn recall
order (`recall_order`, an input permutation of the episode indices) starting
from `elapsed_time = non_decision_time`, and return
`(int(summed_value > 0), elapsed_time, n_recalled, summed_value)`. -/
def EpisodicModel.decide (m : EpisodicModel) (offer_feature : String × String)
    (recall_order : List ℕ) (stopDraw noiseDraw : ℕ → ℚ) : ℕ × ℚ × ℕ × ℚ :=
  let r := m.decideLoop offer_feature stopDraw noiseDraw recall_order 0 0
    m.non_decision_time 0 0
  (if 0 < r.2.2 then 1 else 0, r.1, r.2.1, r.2.2)

/-! A second rendering of the decision procedure, written from the
specification text of the loop (stop check, then time check, then commit,
with the stated growth law and strict-inequality time boundary), used to
settle the refinement claim about `decide`. -/

/-- Loop state for the specification-level rendering of `decide`. -/
structure EpSpecState where
  elapsed : ℚ
  n : ℕ
  summed : ℚ
  t : ℕ
  j : ℕ
  stopped : Bool
deriving Inhabited

/-- One iteration of the loop exactly as the specification describes it:
first the stop check (break when the uniform draw is below
`p_stop * (recalled_count + 1)`), then the time check (break when elapsed
time plus one recall-time increment would strictly exceed
`max_decision_time`), then the commit (add the recall time, bump the count,
and add reward plus noise when a feature matches). Once stopped, the state
is frozen. -/
def epSpecStep (m : EpisodicModel) (offer_feature : String × String)
    (stopDraw noiseDraw : ℕ → ℚ) (s : EpSpecState) (idx : ℕ) : EpSpecState :=
  if s.stopped then s
  else if stopDraw s.t < m.p_stop * ((s.n : ℚ) + 1) then { s with stopped := true }
  else if m.max_decision_time < s.elapsed + m.recall_time then { s with stopped := true }
  else
    let episode := m.episodes.getD idx default
    let matched := offerMatches offer_feature episode.item_features
    { elapsed := s.elapsed + m.recall_time
      n := s.n + 1
      summed := s.summed +
        (if matched then episode.reward + m.recall_noise * noiseDraw s.j else 0)
      t := s.t + 1
      j := s.j + (if matched then 1 else 0)
      stopped := false }

/-- Specification-level rendering of `decide`: fold the specification step
over the recall order and read off choice (1 iff the summed value is strictly
positive), elapsed time, recall count and summed value. -/
def epDecideSpec (m : EpisodicModel) (offer_feature : String × String)
    (recall_order : List ℕ) (stopDraw noiseDraw : ℕ → ℚ) : ℕ × ℚ × ℕ × ℚ :=
  let s := recall_order.foldl (epSpecStep m offer_feature stopDraw noiseDraw)
    { elapsed := m.non_decision_time, n := 0, summed := 0, t := 0, j := 0,
      stopped := false }
  (if 0 < s.summed then 1 else 0, s.elapsed, s.n, s.summed)

/-! ## Feature-Based Decision Model (source: class FeatureBasedModel) -/

/-- Python-dict update used by both running-sum stores: add `r` to the entry
at key `f`, inserting `r` (at the end, in dict insertion order) when the key
is absent. -/
def dictAdd {M : Type} [Add M] : List (String × M) → String → M → List (String × M)
  | [], f, r => [(f, r)]
  | (g, v) :: rest, f, r =>
      if g = f then (g, v + r) :: rest else (g, v) :: dictAdd rest f r

/-- Python-dict lookup on an association list. -/
def dictGet {M : Type} : List (String × M) → String → Option M
  | [], _ => none
  | (g, v) :: rest, f => if g = f then some v else dictGet rest f

/-- The feature-based model: inverse temperature and feature→value dict. -/
structure FeatureBasedModel where
  beta : ℚ
  feature_values : List (String × ℚ)

/-- Source `FeatureBasedModel.encode`: for each of the two feature labels in
order, add the reward to that feature's running sum (initializing at the
reward if absent). -/
def FeatureBasedModel.encode (m : FeatureBasedModel)
    (item_features : String × String) (reward : ℚ) : FeatureBasedModel :=
  { m with feature_values :=
      (dictAdd (dictAdd m.feature_values item_features.1 reward)
        item_features.2 reward) }

/-- Encode a list of episodes into the feature-based model, in order. -/
def FeatureBasedModel.encodeAll (m : FeatureBasedModel) (episodes : List Episode) :
    FeatureBasedModel :=
  episodes.foldl (fun m e => m.encode e.item_features e.reward) m

/-- The logistic choice draw of `FeatureBasedModel.decide`:
`p_accept = 1 / (1 + exp(-beta * value))` and choice 1 iff the uniform draw
`u` is below `p_accept`. The real exponential is exact, not floating point. -/
noncomputable def logisticChoice (beta value u : ℚ) : ℕ :=
  if (u : ℝ) < 1 / (1 + Real.exp (-(beta : ℝ) * (value : ℝ))) then 1 else 0

/-- Source `FeatureBasedModel.decide`: for each of the two offer elements in
order, return `(logistic choice on its value, 2)` at the first element that
is a key of the feature dict; `(0, 2)` when neither is. -/
noncomputable def FeatureBasedModel.decide (m : FeatureBasedModel)
    (offer_feature : String × String) (u : ℚ) : ℕ × ℕ :=
  match dictGet m.feature_values offer_feature.1 with
  | some value => (logisticChoice m.beta value u, 2)
  | none =>
    match dictGet m.feature_values offer_feature.2 with
    | some value => (logisticChoice m.beta value u, 2)
    | none => (0, 2)

/-! ## Trial Orchestrator (source: simulate_trials) -/

/-- Split a list of characters at every occurrence of `sep`
(Python `str.split(sep)` for a one-character separator). -/
def splitSepAux (sep : Char) : List Char → List Char → List (List Char)
  | [], acc => [acc.reverse]
  | c :: cs, acc =>
      if c = sep then acc.reverse :: splitSepAux sep cs []
      else splitSepAux sep cs (c :: acc)

/-- The `item.split('_')` unpacking `feat_type, feat_color = item.split('_')`
of `simulate_trials`. Every catalog item has exactly one underscore, so the
two parts recover the type and color words; Python would raise on any other
shape, here `getD` pads with `""`. -/
def splitItem (s : String) : String × String :=
  let parts := (splitSepAux '_' s.toList []).map String.mk
  (parts.getD 0 "", parts.getD 1 "")

/-- The episode list built by a trial: the split feature pair and the reward
of each item, positionally (`pairs[i]`, `values[i]`). -/
def gameEpisodes (game : Game) : List Episode :=
  (game.Pairs.zip game.Values).map (fun pv =>
    { item_features := splitItem pv.1, reward := (pv.2 : ℚ) })

/-- One step of the `true_values` accumulation of `simulate_trials`: for each
of the item's two split features in order, add the item's reward when the
feature is in the decision-option set. -/
def trueValuesStep (options : List String) (tv : List (String × ℤ))
    (pv : String × ℤ) : List (String × ℤ) :=
  let ft := (splitItem pv.1).1
  let fc := (splitItem pv.1).2
  let tv1 := if options.contains ft then dictAdd tv ft pv.2 else tv
  if options.contains fc then dictAdd tv1 fc pv.2 else tv1

/-- The `true_values` dict of a trial: fold the step over the items
(`pairs[i]`, `values[i]`) in order, starting from the empty dict. -/
def build_true_values (options : List String) (pairs : List String)
    (values : List ℤ) : List (String × ℤ) :=
  (pairs.zip values).foldl (trueValuesStep options) []

/-- One episodic result row (the dict appended to `episodic_results`). -/
structure EpisodicRow where
  model : String
  feature : String
  choice : ℕ
  rt : ℚ
  n_memories : ℕ
  true_value : ℤ
  recalled_value : ℚ
  game_number : ℕ
deriving Inhabited, DecidableEq

/-- One feature-model result row (the dict appended to `feature_results`).
Its `recalled_value` field is filled from the `recalled_value` variable of
the same loop iteration, which was set by the episodic model's decide call. -/
structure FeatureRow where
  model : String
  feature : String
  choice : ℕ
  rt : ℕ
  true_value : ℤ
  recalled_value : ℚ
  game_number : ℕ
deriving Inhabited

/-- The randomness consumed by one trial, indexed by the position `k` of the
feature in the option list: the episodic recall order, stop-draw and
Gaussian-draw streams, and the feature model's uniform draw. -/
structure TrialRand where
  epOrder : ℕ → List ℕ
  epStop : ℕ → ℕ → ℚ
  epNoise : ℕ → ℕ → ℚ
  fbDraw : ℕ → ℚ

/-- The episodic model a trial decides with: the configured model with its
episode store reset to exactly the game's episodes. -/
def epTrialModel (ep0 : EpisodicModel) (game : Game) : EpisodicModel :=
  { ep0 with episodes := gameEpisodes game }

/-- The feature-based model a trial decides with: the game's episodes encoded
into an empty feature dict. -/
def fbTrialModel (beta : ℚ) (game : Game) : FeatureBasedModel :=
  FeatureBasedModel.encodeAll { beta := beta, feature_values := [] }
    (gameEpisodes game)

/-- The body of the per-trial loop of `simulate_trials`, given the sampled
game: rebuild both models from the game's episodes (the episodic store is
reset to exactly the episode list, the feature dict to the episodes encoded
into an empty dict), then for every feature of the option list query both
models and build one row per model. `true_value` reads the `true_values`
dict (`getD 0` stands for Python's indexing; every option feature of every
catalog game is a key, as proved below). -/
noncomputable def simulate_trial (ep0 : EpisodicModel) (beta : ℚ) (game : Game)
    (game_number : ℕ) (rnd : TrialRand) : List EpisodicRow × List FeatureRow :=
  let options := game.Options
  let true_values := build_true_values options game.Pairs game.Values
  let epModel := epTrialModel ep0 game
  let fbModel := fbTrialModel beta game
  let rows := (List.range options.length).map (fun k =>
    let feature := options.getD k ""
    let er := epModel.decide (feature, "") (rnd.epOrder k) (rnd.epStop k) (rnd.epNoise k)
    let fr := fbModel.decide (feature, "") (rnd.fbDraw k)
    (({ model := "episodic", feature := feature, choice := er.1, rt := er.2.1,
        n_memories := er.2.2.1, true_value := (dictGet true_values feature).getD 0,
        recalled_value := er.2.2.2, game_number := game_number } : EpisodicRow),
     ({ model := "feature", feature := feature, choice := fr.1, rt := fr.2,
        true_value := (dictGet true_values feature).getD 0,
        recalled_value := er.2.2.2, game_number := game_number } : FeatureRow)))
  (rows.map Prod.fst, rows.map Prod.snd)

/-- One full trial of `simulate_trials`: build the game table with
`initialize_games(8)`, look up the sampled game number in it, and run the
trial body. `none` models a crash (value generation out of fuel/tape, or a
missing table key). -/
noncomputable def simulate_trial_run (ep0 : EpisodicModel) (beta : ℚ)
    (curr_stims : ℕ) (mults mtime : List String) (tapes : List (List ℤ))
    (fuel : ℕ) (game_number : ℕ) (rnd : TrialRand) :
    Option (List EpisodicRow × List FeatureRow) :=
  match initGames 8 curr_stims mults mtime tapes fuel with
  | none => none
  | some games =>
    match dictGet games (toString game_number) with
    | none => none
    | some game => some (simulate_trial ep0 beta game game_number rnd)

/-- The episodic model as constructed in `simulate_trials` (non-decision time
1.5, recall time 0.5, recall noise 0.5, stop probability 0.1, max decision
time 7.5), with an empty episode store. -/
def episodicDefault : EpisodicModel :=
  { non_decision_time := 3/2, recall_time := 1/2, recall_noise := 1/2,
    p_stop := 1/10, max_decision_time := 15/2, episodes := [] }
/-! ## Specification-level recomputations and concrete instances -/

/-- Modelled from the spec: the ground truth "sum of rewards of every item in
the game whose type or color equals that feature", recomputed independently of
the orchestrator's dict-building loop. -/
def trueSum (pairs : List String) (values : List ℤ) (f : String) : ℤ :=
  (((pairs.zip values).filter (fun pv =>
    decide ((splitItem pv.1).1 = f ∨ (splitItem pv.1).2 = f))).map
      (fun pv => pv.2)).sum

/-- Modelled from the spec: "the sum of rewards over all encoded episodes
where F appears in the episode's feature pair" (each such episode counted
once). -/
def plainRewardSum (F : String) (episodes : List Episode) : ℚ :=
  ((episodes.filter (fun e =>
    e.item_features.1 == F || e.item_features.2 == F)).map
      (fun e => e.reward)).sum

/-- A draw tape whose first six entries form a valid value set. -/
def goodTape : List ℤ := [2, 1, -1, 1, -2, -2]

/-- Eight copies of the good tape: one per game of a table. -/
def tapes8 : List (List ℤ) := List.replicate 8 goodTape

/-- A concrete game table: configuration 1, unshuffled multiplier lists, the
good tape for every game. -/
def gamesW : List (String × Game) :=
  (initGames 8 1 multiplier_list_base multiplier_time_1 tapes8 1).getD []

/-- Concrete trial randomness: identity recall order over six episodes, stop
draws pinned at 1 (never below any stop threshold ≤ 1), no Gaussian noise,
feature-model uniform draw 0. -/
def rnd0 : TrialRand :=
  { epOrder := fun _ => List.range 6, epStop := fun _ _ => 1,
    epNoise := fun _ _ => 0, fbDraw := fun _ => 0 }

/-- An episodic model whose non-decision time (10) already exceeds the
decision-time budget (5) plus one recall increment (1). -/
def epBad : EpisodicModel :=
  { non_decision_time := 10, recall_time := 1, recall_noise := 0,
    p_stop := 0, max_decision_time := 5, episodes := [] }

/-- An episodic model with stop probability 0, no recall noise, and a time
budget wide enough for its two stored episodes. -/
def epC7 : EpisodicModel :=
  { non_decision_time := 1, recall_time := 1, recall_noise := 0,
    p_stop := 0, max_decision_time := 10,
    episodes := [{ item_features := ("Food", "Blue"), reward := 2 },
                 { item_features := ("Object", "Red"), reward := -1 }] }

/-- An episode whose two feature slots carry the same word. -/
def dupEpisode : Episode := { item_features := ("Food", "Food"), reward := 1 }

/-- Running total for a key over a list of (key, increment) events. -/
def sumFor {M : Type} [AddMonoid M] (f : String) (events : List (String × M)) : M :=
  ((events.filter (fun e => e.1 == f)).map (fun e => e.2)).sum

/-- Fold a list of (key, increment) events into a dict. -/
def dictAddAll {M : Type} [Add M] (d : List (String × M))
    (events : List (String × M)) : List (String × M) :=
  events.foldl (fun d e => dictAdd d e.1 e.2) d


/-- The per-episode (key, increment) events of the feature-based encoder: one
event per feature slot, in slot order. -/
def epEvents (episodes : List Episode) : List (String × ℚ) :=
  match episodes with
  | [] => []
  | e :: rest =>
    (e.item_features.1, e.reward) :: (e.item_features.2, e.reward) :: epEvents rest


/-- The gated (key, increment) events one item contributes to the
`true_values` dict: its type word when it is an option, then its color word
when it is an option. -/
def pvEvents (options : List String) (pv : String × ℤ) : List (String × ℤ) :=
  (if options.contains (splitItem pv.1).1
   then [((splitItem pv.1).1, pv.2)] else []) ++
  (if options.contains (splitItem pv.1).2
   then [((splitItem pv.1).2, pv.2)] else [])

/-- All `true_values` events of a list of items, in item order. -/
def trueEvents (options : List String) : List (String × ℤ) → List (String × ℤ)
  | [] => []
  | pv :: rest => pvEvents options pv ++ trueEvents options rest

/-- The contribution of one item to the `true_values` entry of feature `f`:
its reward once per slot that carries `f` and is an option. -/
def trueContrib (options : List String) (f : String) (pv : String × ℤ) : ℤ :=
  (if (options.contains (splitItem pv.1).1 && ((splitItem pv.1).1 == f)) = true
   then pv.2 else 0) +
  (if (options.contains (splitItem pv.1).2 && ((splitItem pv.1).2 == f)) = true
   then pv.2 else 0)

/-- The game stored under key "1" of the concrete table. -/
def gameW : Game := (dictGet gamesW "1").getD default

/-- A concrete episode with distinct feature words. -/
def epFoodBlue : Episode := { item_features := ("Food", "Blue"), reward := 2 }

/-- A second concrete episode with distinct feature words. -/
def epObjectRed : Episode := { item_features := ("Object", "Red"), reward := -1 }
/-! ## Lemmas: the value set generator -/

/-- What `genSubArrayAux` produces: a list of `acc.length + n` values, each
either from the accumulator or a nonzero tape entry, and a leftover tape whose
entries all come from the input tape. -/
theorem genSubArrayAux_spec (tape : List ℤ) :
    ∀ (n : ℕ) (acc vs rest : List ℤ),
      genSubArrayAux tape n acc = some (vs, rest) →
      vs.length = acc.length + n ∧
      (∀ v ∈ vs, v ∈ acc ∨ (v ∈ tape ∧ v ≠ 0)) ∧
      (∀ d ∈ rest, d ∈ tape) := by
  induction tape with
  | nil =>
    intro n acc vs rest h
    cases n with
    | zero =>
      simp only [genSubArrayAux, Option.some.injEq, Prod.mk.injEq] at h
      obtain ⟨rfl, rfl⟩ := h
      simp
    | succ n => simp [genSubArrayAux] at h
  | cons d ds ih =>
    intro n acc vs rest h
    cases n with
    | zero =>
      simp only [genSubArrayAux, Option.some.injEq, Prod.mk.injEq] at h
      obtain ⟨rfl, rfl⟩ := h
      refine ⟨by simp, ?_, fun x hx => hx⟩
      intro v hv
      left
      simpa using hv
    | succ n =>
      rw [genSubArrayAux] at h
      by_cases hd : d = 0
      · rw [if_pos hd] at h
        obtain ⟨hlen, hmem, hrest⟩ := ih (n + 1) acc vs rest h
        refine ⟨hlen, ?_, ?_⟩
        · intro v hv
          rcases hmem v hv with h1 | ⟨h2, h3⟩
          · exact Or.inl h1
          · exact Or.inr ⟨List.mem_cons_of_mem _ h2, h3⟩
        · intro x hx
          exact List.mem_cons_of_mem _ (hrest x hx)
      · rw [if_neg hd] at h
        obtain ⟨hlen, hmem, hrest⟩ := ih n (d :: acc) vs rest h
        refine ⟨?_, ?_, ?_⟩
        · simp only [List.length_cons] at hlen
          omega
        · intro v hv
          rcases hmem v hv with h1 | ⟨h2, h3⟩
          · rcases List.mem_cons.mp h1 with rfl | h1'
            · exact Or.inr ⟨List.mem_cons_self _ _, hd⟩
            · exact Or.inl h1'
          · exact Or.inr ⟨List.mem_cons_of_mem _ h2, h3⟩
        · intro x hx
          exact List.mem_cons_of_mem _ (hrest x hx)

/-- A list of nonzero integers is partitioned by its positive and negative
entries. -/
theorem filter_pos_neg_length :
    ∀ l : List ℤ, (∀ v ∈ l, v ≠ 0) →
      (l.filter (fun v => decide (0 < v))).length +
        (l.filter (fun v => decide (v < 0))).length = l.length := by
  intro l
  induction l with
  | nil => simp
  | cons a l ih =>
    intro h
    have ha := h a (List.mem_cons_self a l)
    have hl := ih fun v hv => h v (List.mem_cons_of_mem a hv)
    rcases lt_trichotomy a 0 with h1 | h2 | h3
    · have e1 : (decide ((0 : ℤ) < a)) = false := decide_eq_false (by omega)
      have e2 : (decide (a < (0 : ℤ))) = true := decide_eq_true h1
      rw [List.filter_cons, List.filter_cons, e1, e2, if_neg (by simp), if_pos rfl]
      simp only [List.length_cons]
      omega
    · exact absurd h2 ha
    · have e1 : (decide ((0 : ℤ) < a)) = true := decide_eq_true h3
      have e2 : (decide (a < (0 : ℤ))) = false := decide_eq_false (by omega)
      rw [List.filter_cons, List.filter_cons, e1, e2, if_pos rfl, if_neg (by simp)]
      simp only [List.length_cons]
      omega

/-- Unpacking `is_valid_values_set` for size 6: at least three positive and
three negative entries, and the three partial-sum conditions. -/
theorem is_valid_spec (vs : List ℤ) (h : is_valid_values_set vs 6 = true) :
    3 ≤ (vs.filter (fun v => decide (0 < v))).length ∧
    3 ≤ (vs.filter (fun v => decide (v < 0))).length ∧
    (∃ s ∈ check_sums vs, s < 0) ∧
    (∃ s ∈ check_sums vs, 0 < s) ∧
    (∀ s ∈ check_sums vs, s ≠ 0) := by
  simp only [is_valid_values_set] at h
  split_ifs at h with h1
  rw [Bool.and_eq_true, Bool.and_eq_true] at h
  obtain ⟨⟨hA, hB⟩, hC⟩ := h
  push_neg at h1
  refine ⟨by omega, by omega, ?_, ?_, ?_⟩
  · simpa using List.any_eq_true.mp hA
  · simpa using List.any_eq_true.mp hB
  · simpa using List.all_eq_true.mp hC

/-- Any value set returned by `generate_values_set` was accepted by
`is_valid_values_set`. -/
theorem generate_values_set_valid :
    ∀ (fuel : ℕ) (tape : List ℤ) (num_values : ℕ) (vs : List ℤ),
      generate_values_set fuel tape num_values = some vs →
      is_valid_values_set vs num_values = true := by
  intro fuel
  induction fuel with
  | zero => intro tape nv vs h; simp [generate_values_set] at h
  | succ fuel ih =>
    intro tape nv vs h
    rw [generate_values_set] at h
    split at h
    · exact absurd h (by simp)
    · rename_i values_set rest heq
      split_ifs at h with hv
      · cases h
        exact hv
      · exact ih rest nv vs h
/-! ## Lemmas: game construction -/

/-- Every element of a successfully collected list comes from a successful
application of `f` to some index of the input list. -/
theorem seqOption_mem {α : Type} (f : ℕ → Option α) :
    ∀ (is : List ℕ) (ys : List α), seqOption f is = some ys →
      ∀ y ∈ ys, ∃ i ∈ is, f i = some y := by
  intro is
  induction is with
  | nil =>
    intro ys h y hy
    simp only [seqOption, Option.some.injEq] at h
    subst h
    simp at hy
  | cons i is ih =>
    intro ys h y hy
    rw [seqOption] at h
    split at h
    · rename_i a as hfa hsa
      cases h
      rcases List.mem_cons.mp hy with rfl | hy'
      · exact ⟨i, List.mem_cons_self _ _, hfa⟩
      · obtain ⟨i', hi', hfi'⟩ := ih as hsa y hy'
        exact ⟨i', List.mem_cons_of_mem _ hi', hfi'⟩
    · exact absurd h (by simp)

/-- A successful dict lookup locates a member of the association list. -/
theorem dictGet_mem {M : Type} :
    ∀ (d : List (String × M)) (f : String) (v : M),
      dictGet d f = some v → (f, v) ∈ d := by
  intro d
  induction d with
  | nil => intro f v h; simp [dictGet] at h
  | cons kv rest ih =>
    intro f v h
    obtain ⟨k, w⟩ := kv
    rw [dictGet] at h
    by_cases hk : k = f
    · rw [if_pos hk] at h
      cases h
      subst hk
      exact List.mem_cons_self _ _
    · rw [if_neg hk] at h
      exact List.mem_cons_of_mem _ (ih f v h)

/-- Every decision-option row of every configuration consists of exactly three
category words and three color words, so either axis filter leaves exactly
three options; the filtered rows also never retain an opposite-axis word. -/
theorem dec_row_facts (s : ℕ) (h1 : 1 ≤ s) (h2 : s ≤ 5) :
    (full_dec_set s).length = 8 ∧
    ∀ row ∈ full_dec_set s,
      (row.filter (fun w => !(color_words.contains w))).length = 3 ∧
      (row.filter (fun w => !(category_words.contains w))).length = 3 := by
  have hs : s = 1 ∨ s = 2 ∨ s = 3 ∨ s = 4 ∨ s = 5 := by omega
  rcases hs with rfl | rfl | rfl | rfl | rfl <;> exact (by decide)

/-- Every item of every configuration splits into a category word and a
distinct color word. -/
theorem item_row_facts (s : ℕ) (h1 : 1 ≤ s) (h2 : s ≤ 5) :
    (full_item_set s).length = 8 ∧
    ∀ row ∈ full_item_set s, ∀ p ∈ row,
      (splitItem p).1 ≠ (splitItem p).2 := by
  have hs : s = 1 ∨ s = 2 ∨ s = 3 ∨ s = 4 ∨ s = 5 := by omega
  rcases hs with rfl | rfl | rfl | rfl | rfl <;> exact (by decide)

/-- Each entry of the shuffled multiplier axis list is one of the two axis
words. -/
theorem mults_axis_cases (mults : List String)
    (hm : mults.Perm multiplier_list_base) (j : ℕ) (hj : j < 8) :
    mults.getD j "" = "Category" ∨ mults.getD j "" = "Color" := by
  have hlen : mults.length = 8 := by
    rw [hm.length_eq]
    decide
  have hjlen : j < mults.length := by omega
  have hmem : mults.getD j "" ∈ mults := by
    rw [List.getD_eq_getElem _ _ hjlen]
    exact List.getElem_mem hjlen
  have hb : mults.getD j "" ∈ multiplier_list_base := hm.mem_iff.mp hmem
  have : ∀ w ∈ multiplier_list_base, w = "Category" ∨ w = "Color" := by decide
  exact this _ hb

/-- Structure of every entry of a table built by `initGames`: entry `j` (in
table order) is keyed by `toString (j + 1)` and packages the `j`-th item row,
an accepted value set from the `j`-th tape, the axis-filtered `j`-th decision
row, and the `j`-th multiplier pair. -/
theorem initGames_mem_spec (n_games curr_stims : ℕ) (mults mtime : List String)
    (tapes : List (List ℤ)) (fuel : ℕ) (games : List (String × Game))
    (h : initGames n_games curr_stims mults mtime tapes fuel = some games) :
    ∀ kg ∈ games, ∃ j, j < n_games ∧
      kg.1 = toString (j + 1) ∧
      kg.2.Pairs = (full_item_set curr_stims).getD j [] ∧
      generate_values_set fuel (tapes.getD j []) 6 = some kg.2.Values ∧
      kg.2.Options = option_list_for (mults.getD j "")
        ((full_dec_set curr_stims).getD j []) ∧
      kg.2.Multiplier = [mults.getD j "", mtime.getD j ""] := by
  intro kg hkg
  obtain ⟨i, hi, hmk⟩ := seqOption_mem _ _ _ h kg hkg
  obtain ⟨j, hj, rfl⟩ := List.mem_map.mp hi
  have hj' : j < n_games := List.mem_range.mp hj
  refine ⟨j, hj', ?_⟩
  simp only [mkGame, Nat.add_sub_cancel] at hmk
  cases hgv : generate_values_set fuel (tapes.getD j []) 6 with
  | none => rw [hgv] at hmk; simp at hmk
  | some vs =>
    rw [hgv] at hmk
    simp only [Option.map_some', Option.some.injEq] at hmk
    subst hmk
    refine ⟨rfl, rfl, ?_, rfl, rfl⟩
    simp only [create_game]
/-! ## Lemmas: the episodic decision model -/

/-- Once the specification-level loop state is stopped, folding further
indices leaves it unchanged. -/
theorem epSpecStep_frozen (m : EpisodicModel) (offer_feature : String × String)
    (stopDraw noiseDraw : ℕ → ℚ) :
    ∀ (order : List ℕ) (s : EpSpecState), s.stopped = true →
      order.foldl (epSpecStep m offer_feature stopDraw noiseDraw) s = s := by
  intro order
  induction order with
  | nil => intro s _; rfl
  | cons idx rest ih =>
    intro s hs
    rw [List.foldl_cons]
    have hstep : epSpecStep m offer_feature stopDraw noiseDraw s idx = s := by
      rw [epSpecStep, if_pos hs]
    rw [hstep]
    exact ih s hs

/-- The source recall loop and the specification-level fold compute the same
elapsed time, recall count and summed value from any unstopped state. -/
theorem decideLoop_eq_spec (m : EpisodicModel) (offer_feature : String × String)
    (stopDraw noiseDraw : ℕ → ℚ) :
    ∀ (order : List ℕ) (elapsed : ℚ) (n : ℕ) (summed : ℚ) (t j : ℕ),
      (let s := order.foldl (epSpecStep m offer_feature stopDraw noiseDraw)
        { elapsed := elapsed, n := n, summed := summed, t := t, j := j,
          stopped := false }
       ((s.elapsed, s.n, s.summed) : ℚ × ℕ × ℚ)) =
      m.decideLoop offer_feature stopDraw noiseDraw order t j elapsed n summed := by
  intro order
  induction order with
  | nil => intro elapsed n summed t j; rfl
  | cons idx rest ih =>
    intro elapsed n summed t j
    rw [List.foldl_cons, EpisodicModel.decideLoop, epSpecStep]
    dsimp only
    rw [if_neg (by simp)]
    by_cases h1 : stopDraw t < m.p_stop * ((n : ℚ) + 1)
    · rw [if_pos h1, if_pos h1]
      rw [epSpecStep_frozen m offer_feature stopDraw noiseDraw rest _ rfl]
    · rw [if_neg h1, if_neg h1]
      by_cases h2 : m.max_decision_time < elapsed + m.recall_time
      · rw [if_pos h2, if_pos h2]
        rw [epSpecStep_frozen m offer_feature stopDraw noiseDraw rest _ rfl]
      · rw [if_neg h2, if_neg h2]
        by_cases h3 : offerMatches offer_feature
            ((m.episodes.getD idx default).item_features) = true
        · rw [if_pos h3, if_pos h3, if_pos h3]
          exact ih (elapsed + m.recall_time) (n + 1)
            (summed + ((m.episodes.getD idx default).reward +
              m.recall_noise * noiseDraw j)) (t + 1) (j + 1)
        · rw [if_neg h3, if_neg h3, if_neg h3, add_zero]
          exact ih (elapsed + m.recall_time) (n + 1) summed (t + 1) j

/-- Elapsed time over the recall loop: it never decreases (for a nonnegative
recall time), and on exit it is either untouched or within the decision-time
budget. -/
theorem decideLoop_elapsed_bounds (m : EpisodicModel)
    (offer_feature : String × String) (stopDraw noiseDraw : ℕ → ℚ)
    (hrt : 0 ≤ m.recall_time) :
    ∀ (order : List ℕ) (t j : ℕ) (elapsed : ℚ) (n : ℕ) (summed : ℚ),
      elapsed ≤ (m.decideLoop offer_feature stopDraw noiseDraw order t j
        elapsed n summed).1 ∧
      ((m.decideLoop offer_feature stopDraw noiseDraw order t j
          elapsed n summed).1 = elapsed ∨
       (m.decideLoop offer_feature stopDraw noiseDraw order t j
          elapsed n summed).1 ≤ m.max_decision_time) := by
  intro order
  induction order with
  | nil => intro t j elapsed n summed; exact ⟨le_refl _, Or.inl rfl⟩
  | cons idx rest ih =>
    intro t j elapsed n summed
    rw [EpisodicModel.decideLoop]
    dsimp only
    split_ifs with h1 h2 h3
    · exact ⟨le_refl _, Or.inl rfl⟩
    · exact ⟨le_refl _, Or.inl rfl⟩
    · obtain ⟨ihl, ihr⟩ := ih (t + 1) (j + 1) (elapsed + m.recall_time) (n + 1)
        (summed + ((m.episodes.getD idx default).reward +
          m.recall_noise * noiseDraw j))
      refine ⟨le_trans (by linarith) ihl, Or.inr ?_⟩
      rcases ihr with he | hb
      · rw [he]; linarith [not_lt.mp h2]
      · exact hb
    · obtain ⟨ihl, ihr⟩ := ih (t + 1) j (elapsed + m.recall_time) (n + 1) summed
      refine ⟨le_trans (by linarith) ihl, Or.inr ?_⟩
      rcases ihr with he | hb
      · rw [he]; linarith [not_lt.mp h2]
      · exact hb

/-- With stop probability 0, nonnegative stop draws, zero recall noise and
enough time for every remaining recall, the loop commits every index: it adds
one recall time per index, counts every index, and adds exactly the rewards of
the matching episodes. -/
theorem decideLoop_no_stop (m : EpisodicModel) (offer_feature : String × String)
    (stopDraw noiseDraw : ℕ → ℚ) (hp : m.p_stop = 0) (hsd : ∀ t, 0 ≤ stopDraw t)
    (hrn : m.recall_noise = 0) (hrt : 0 ≤ m.recall_time) :
    ∀ (order : List ℕ) (t j : ℕ) (elapsed : ℚ) (n : ℕ) (summed : ℚ),
      elapsed + order.length * m.recall_time ≤ m.max_decision_time →
      m.decideLoop offer_feature stopDraw noiseDraw order t j elapsed n summed =
        (elapsed + order.length * m.recall_time, n + order.length,
         summed + (order.map (fun idx =>
           if offerMatches offer_feature
               ((m.episodes.getD idx default).item_features) = true
           then (m.episodes.getD idx default).reward else 0)).sum) := by
  intro order
  induction order with
  | nil => intro t j elapsed n summed _; simp [EpisodicModel.decideLoop]
  | cons idx rest ih =>
    intro t j elapsed n summed htime
    have hlen : ((idx :: rest : List ℕ).length : ℚ) = (rest.length : ℚ) + 1 := by
      push_cast [List.length_cons]
      ring
    have hrest0 : 0 ≤ (rest.length : ℚ) * m.recall_time :=
      mul_nonneg (by positivity) hrt
    have hstep : elapsed + m.recall_time + rest.length * m.recall_time ≤
        m.max_decision_time := by
      rw [hlen] at htime
      linarith
    rw [EpisodicModel.decideLoop]
    dsimp only
    rw [if_neg (by rw [hp, zero_mul]; exact not_lt.mpr (hsd t))]
    rw [if_neg (by linarith)]
    by_cases h3 : offerMatches offer_feature
        ((m.episodes.getD idx default).item_features) = true
    · rw [if_pos h3, ih (t + 1) (j + 1) _ _ _ hstep]
      rw [List.map_cons, List.sum_cons, if_pos h3, hrn]
      refine congrArg₂ Prod.mk ?_ (congrArg₂ Prod.mk ?_ ?_)
      · rw [hlen]; ring
      · rw [List.length_cons]; omega
      · ring
    · rw [if_neg h3, ih (t + 1) j _ _ _ hstep]
      rw [List.map_cons, List.sum_cons, if_neg h3]
      refine congrArg₂ Prod.mk ?_ (congrArg₂ Prod.mk ?_ ?_)
      · rw [hlen]; ring
      · rw [List.length_cons]; omega
      · ring

/-- Summing a function of `getD` over the index range of a list is summing the
function over the list. -/
theorem range_map_getD_sum (g : Episode → ℚ) :
    ∀ (eps : List Episode),
      ((List.range eps.length).map (fun idx => g (eps.getD idx default))).sum =
      (eps.map g).sum := by
  intro eps
  induction eps with
  | nil => simp
  | cons e eps ih =>
    rw [List.length_cons, List.range_succ_eq_map, List.map_cons, List.sum_cons,
      List.map_map, List.map_cons, List.sum_cons]
    have hcomp :
        ((fun idx => g ((e :: eps).getD idx default)) ∘ Nat.succ) =
        (fun idx => g (eps.getD idx default)) := by
      funext i
      simp [List.getD_cons_succ]
    rw [hcomp, ih]
    simp [List.getD_cons_zero]

/-- Under a nonempty pair of episode features, the match test against an offer
whose second slot is the empty-string placeholder reduces to a match of the
first slot. -/
theorem offerMatches_empty_snd (F : String) (feats : String × String)
    (h1 : feats.1 ≠ "") (h2 : feats.2 ≠ "") :
    offerMatches (F, "") feats = (F == feats.1 || F == feats.2) := by
  have e1 : ("" == feats.1) = false := by
    simpa using fun h => h1 h.symm
  have e2 : ("" == feats.2) = false := by
    simpa using fun h => h2 h.symm
  simp only [offerMatches, strIn, e1, e2, Bool.or_false]
/-! ## Lemmas: dict accumulation and the feature-based model -/

/-- Lookup after a dict update: the updated key reads its old value plus the
increment (or just the increment when absent), every other key is untouched. -/
theorem dictGet_dictAdd {M : Type} [Add M] :
    ∀ (d : List (String × M)) (f g : String) (r : M),
      dictGet (dictAdd d f r) g =
        if g = f then
          (match dictGet d f with
           | some v => some (v + r)
           | none => some r)
        else dictGet d g := by
  intro d
  induction d with
  | nil =>
    intro f g r
    by_cases h : g = f
    · subst h; simp [dictAdd, dictGet]
    · have h' : ¬ f = g := fun hh => h hh.symm
      simp [dictAdd, dictGet, h, h']
  | cons kv rest ih =>
    intro f g r
    obtain ⟨k, v⟩ := kv
    by_cases hkf : k = f
    · subst hkf
      by_cases hgk : g = k
      · subst hgk
        simp [dictAdd, dictGet]
      · have hkg : ¬ k = g := fun hh => hgk hh.symm
        simp [dictAdd, dictGet, hgk, hkg]
    · by_cases hkg : k = g
      · subst hkg
        simp [dictAdd, dictGet, hkf]
      · by_cases hgf : g = f
        · subst hgf
          simp [dictAdd, dictGet, hkf, hkg, ih]
        · have hfg : ¬ f = g := fun hh => hgf hh.symm
          simp [dictAdd, dictGet, hkf, hkg, hgf, hfg, ih]

theorem sumFor_cons {M : Type} [AddMonoid M] (f : String) (e : String × M)
    (rest : List (String × M)) :
    sumFor f (e :: rest) =
      (if e.1 = f then e.2 + sumFor f rest else sumFor f rest) := by
  by_cases h : e.1 = f
  · rw [if_pos h]
    simp [sumFor, List.filter_cons, h]
  · rw [if_neg h]
    simp [sumFor, List.filter_cons, h]

/-- Lookup after folding events into a dict: a key present before reads its
old value plus its running total; a key absent before reads its running total
when it occurs among the events and stays absent otherwise. -/
theorem dictGet_dictAddAll {M : Type} [AddMonoid M] :
    ∀ (events : List (String × M)) (d : List (String × M)) (f : String),
      dictGet (dictAddAll d events) f =
        match dictGet d f with
        | some v => some (v + sumFor f events)
        | none =>
          if events.any (fun e => e.1 == f) then some (sumFor f events)
          else none := by
  intro events
  induction events with
  | nil =>
    intro d f
    have h0 : sumFor f ([] : List (String × M)) = 0 := rfl
    cases hd : dictGet d f <;> simp [dictAddAll, h0, hd]
  | cons e rest ih =>
    intro d f
    have hstep : dictAddAll d (e :: rest) = dictAddAll (dictAdd d e.1 e.2) rest := rfl
    rw [hstep, ih, dictGet_dictAdd, sumFor_cons, List.any_cons]
    by_cases hef : e.1 = f
    · have hfe : f = e.1 := hef.symm
      have hbeq : (e.1 == f) = true := by simp [hef]
      rw [if_pos hfe, if_pos hef, hbeq, hef]
      cases hd : dictGet d f with
      | none => simp
      | some v => simp [add_assoc]
    · have hfe : ¬ f = e.1 := fun hh => hef hh.symm
      have hbeq : (e.1 == f) = false := by simp [hef]
      rw [if_neg hfe, if_neg hef, hbeq]
      cases hd : dictGet d f with
      | some v => rfl
      | none => rw [Bool.false_or]

/-- Encoding episodes into the feature-based model folds their per-slot events
into the feature dict (and leaves beta unchanged). -/
theorem encodeAll_feature_values (beta : ℚ) :
    ∀ (episodes : List Episode) (fv : List (String × ℚ)),
      (FeatureBasedModel.encodeAll { beta := beta, feature_values := fv }
        episodes).feature_values = dictAddAll fv (epEvents episodes) := by
  intro episodes
  induction episodes with
  | nil => intro fv; rfl
  | cons e rest ih =>
    intro fv
    have h1 : FeatureBasedModel.encodeAll
        { beta := beta, feature_values := fv } (e :: rest) =
        FeatureBasedModel.encodeAll
          { beta := beta, feature_values :=
            (dictAdd (dictAdd fv e.item_features.1 e.reward)
              e.item_features.2 e.reward) } rest := rfl
    rw [h1, ih]
    rfl

/-- The slot-weighted reward total of a feature over a list of episodes equals
the running total of its encoder events. -/
theorem sumFor_epEvents (F : String) :
    ∀ (episodes : List Episode),
      sumFor F (epEvents episodes) =
        (episodes.map (fun e =>
          (if e.item_features.1 = F then e.reward else 0) +
          (if e.item_features.2 = F then e.reward else 0))).sum := by
  intro episodes
  induction episodes with
  | nil => rfl
  | cons e rest ih =>
    rw [epEvents, sumFor_cons, sumFor_cons, List.map_cons, List.sum_cons, ← ih]
    by_cases h1 : e.item_features.1 = F <;>
      by_cases h2 : e.item_features.2 = F <;>
        simp [h1, h2, add_assoc]

/-- A feature occurs among the encoder events exactly when some episode
carries it in either slot. -/
theorem any_epEvents (F : String) :
    ∀ (episodes : List Episode),
      (epEvents episodes).any (fun e => e.1 == F) =
        episodes.any (fun e =>
          e.item_features.1 == F || e.item_features.2 == F) := by
  intro episodes
  induction episodes with
  | nil => rfl
  | cons e rest ih =>
    rw [epEvents, List.any_cons, List.any_cons, List.any_cons, ih]
    simp [Bool.or_assoc]

/-- Permuted lists agree on `any`. -/
theorem perm_any {α : Type} {l1 l2 : List α} (h : l1.Perm l2) (p : α → Bool) :
    l1.any p = l2.any p := by
  cases ha : l1.any p with
  | true =>
    obtain ⟨x, hx, hpx⟩ := List.any_eq_true.mp ha
    exact (List.any_eq_true.mpr ⟨x, h.mem_iff.mp hx, hpx⟩).symm
  | false =>
    cases hb : l2.any p with
    | false => rfl
    | true =>
      obtain ⟨x, hx, hpx⟩ := List.any_eq_true.mp hb
      have : l1.any p = true := List.any_eq_true.mpr ⟨x, h.mem_iff.mpr hx, hpx⟩
      rw [ha] at this
      exact this

/-- Summing an if-then-else over a list equals summing the filtered list, for
rational weights. -/
theorem sum_ite_eq_sum_filter {α : Type} (p : α → Bool) (w : α → ℚ) :
    ∀ l : List α,
      (l.map (fun x => if p x = true then w x else 0)).sum =
      ((l.filter p).map w).sum := by
  intro l
  induction l with
  | nil => rfl
  | cons a l ih =>
    rw [List.map_cons, List.sum_cons, List.filter_cons]
    by_cases h : p a = true
    · rw [if_pos h, if_pos h, List.map_cons, List.sum_cons, ih]
    · rw [if_neg h, if_neg h, ih, zero_add]

/-- The integer version of `sum_ite_eq_sum_filter`. -/
theorem sum_ite_eq_sum_filter_int {α : Type} (p : α → Bool) (w : α → ℤ) :
    ∀ l : List α,
      (l.map (fun x => if p x = true then w x else 0)).sum =
      ((l.filter p).map w).sum := by
  intro l
  induction l with
  | nil => rfl
  | cons a l ih =>
    rw [List.map_cons, List.sum_cons, List.filter_cons]
    by_cases h : p a = true
    · rw [if_pos h, if_pos h, List.map_cons, List.sum_cons, ih]
    · rw [if_neg h, if_neg h, ih, zero_add]
/-! ## Lemmas: the trial orchestrator -/

/-- One `true_values` step is the fold of the item's gated events. -/
theorem trueValuesStep_eq_events (options : List String)
    (tv : List (String × ℤ)) (pv : String × ℤ) :
    trueValuesStep options tv pv = dictAddAll tv (pvEvents options pv) := by
  rw [trueValuesStep, pvEvents]
  by_cases h1 : options.contains (splitItem pv.1).1 = true
  · rw [if_pos h1, if_pos h1]
    by_cases h2 : options.contains (splitItem pv.1).2 = true
    · rw [if_pos h2, if_pos h2]
      rfl
    · rw [if_neg h2, if_neg h2]
      rfl
  · rw [if_neg h1, if_neg h1]
    by_cases h2 : options.contains (splitItem pv.1).2 = true
    · rw [if_pos h2, if_pos h2]
      rfl
    · rw [if_neg h2, if_neg h2]
      rfl

/-- Folding gated events of consecutive items is folding one long event
list. -/
theorem build_foldl_eq_dictAddAll (options : List String) :
    ∀ (items : List (String × ℤ)) (tv : List (String × ℤ)),
      items.foldl (trueValuesStep options) tv =
        dictAddAll tv (trueEvents options items) := by
  intro items
  induction items with
  | nil => intro tv; rfl
  | cons pv rest ih =>
    intro tv
    rw [List.foldl_cons, ih, trueValuesStep_eq_events, trueEvents,
      dictAddAll, dictAddAll, dictAddAll, List.foldl_append]

/-- Running totals add over appended event lists. -/
theorem sumFor_append {M : Type} [AddMonoid M] (f : String)
    (xs ys : List (String × M)) :
    sumFor f (xs ++ ys) = sumFor f xs + sumFor f ys := by
  simp [sumFor, List.filter_append]

theorem sumFor_gate (c : Bool) (x : String) (v : ℤ) (f : String) :
    sumFor f (if c = true then [(x, v)] else []) =
      (if (c && (x == f)) = true then v else 0) := by
  cases c with
  | false => rfl
  | true =>
    cases hx : (x == f) with
    | true => simp [sumFor, hx]
    | false => simp [sumFor, hx]

/-- The running total of a feature over one item's gated events is that
item's contribution. -/
theorem sumFor_pvEvents (options : List String) (f : String) (pv : String × ℤ) :
    sumFor f (pvEvents options pv) = trueContrib options f pv := by
  rw [pvEvents, sumFor_append, trueContrib, sumFor_gate, sumFor_gate]

/-- The running total of a feature over all items' gated events is the sum of
the items' contributions. -/
theorem sumFor_trueEvents (options : List String) (f : String) :
    ∀ (items : List (String × ℤ)),
      sumFor f (trueEvents options items) =
        (items.map (trueContrib options f)).sum := by
  intro items
  induction items with
  | nil => rfl
  | cons pv rest ih =>
    rw [trueEvents, sumFor_append, sumFor_pvEvents, List.map_cons,
      List.sum_cons, ih]

/-- An item's contribution to an option feature with distinct split words is
its reward exactly when one of its words is that feature. -/
theorem trueContrib_eq (options : List String) (f : String) (pv : String × ℤ)
    (hf : options.contains f = true)
    (hdist : (splitItem pv.1).1 ≠ (splitItem pv.1).2) :
    trueContrib options f pv =
      if ((splitItem pv.1).1 = f ∨ (splitItem pv.1).2 = f) then pv.2 else 0 := by
  by_cases ht : (splitItem pv.1).1 = f
  · have hc : (splitItem pv.1).2 ≠ f := fun hh => hdist (ht.trans hh.symm)
    have e1 : (options.contains (splitItem pv.1).1 &&
        ((splitItem pv.1).1 == f)) = true := by
      rw [ht, hf, beq_self_eq_true, Bool.and_true]
    have e2 : (options.contains (splitItem pv.1).2 &&
        ((splitItem pv.1).2 == f)) = false := by
      rw [beq_eq_false_iff_ne.mpr hc, Bool.and_false]
    rw [trueContrib, e1, e2, if_pos rfl, if_neg Bool.false_ne_true,
      if_pos (Or.inl ht), add_zero]
  · by_cases hc : (splitItem pv.1).2 = f
    · have e1 : (options.contains (splitItem pv.1).1 &&
          ((splitItem pv.1).1 == f)) = false := by
        rw [beq_eq_false_iff_ne.mpr ht, Bool.and_false]
      have e2 : (options.contains (splitItem pv.1).2 &&
          ((splitItem pv.1).2 == f)) = true := by
        rw [hc, hf, beq_self_eq_true, Bool.and_true]
      rw [trueContrib, e1, e2, if_neg Bool.false_ne_true, if_pos rfl,
        if_pos (Or.inr hc), zero_add]
    · have e1 : (options.contains (splitItem pv.1).1 &&
          ((splitItem pv.1).1 == f)) = false := by
        rw [beq_eq_false_iff_ne.mpr ht, Bool.and_false]
      have e2 : (options.contains (splitItem pv.1).2 &&
          ((splitItem pv.1).2 == f)) = false := by
        rw [beq_eq_false_iff_ne.mpr hc, Bool.and_false]
      rw [trueContrib, e1, e2, if_neg Bool.false_ne_true,
        if_neg (fun hor => hor.elim ht hc), add_zero]

/-- Summing contributions over items recovers the independently recomputed
ground truth. -/
theorem map_trueContrib_eq_trueSum (options : List String) (f : String)
    (pairs : List String) (values : List ℤ)
    (hf : options.contains f = true)
    (hdist : ∀ p ∈ pairs, (splitItem p).1 ≠ (splitItem p).2) :
    ((pairs.zip values).map (trueContrib options f)).sum =
      trueSum pairs values f := by
  rw [trueSum, ← sum_ite_eq_sum_filter_int
    (fun pv : String × ℤ => decide ((splitItem pv.1).1 = f ∨ (splitItem pv.1).2 = f))
    (fun pv : String × ℤ => pv.2)]
  apply congrArg
  apply List.map_congr_left
  intro pv hpv
  have hp : pv.1 ∈ pairs := (List.of_mem_zip hpv).1
  rw [trueContrib_eq options f pv hf (hdist pv.1 hp)]
  by_cases h : (splitItem pv.1).1 = f ∨ (splitItem pv.1).2 = f
  · rw [if_pos h, if_pos (by simpa using h)]
  · rw [if_neg h, if_neg (by simpa using h)]

/-- Reading the `true_values` dict (with default 0) at an option feature of a
game whose items split into distinct words gives the independently recomputed
ground truth. -/
theorem true_value_lookup (options : List String) (pairs : List String)
    (values : List ℤ) (f : String)
    (hf : options.contains f = true)
    (hdist : ∀ p ∈ pairs, (splitItem p).1 ≠ (splitItem p).2) :
    (dictGet (build_true_values options pairs values) f).getD 0 =
      trueSum pairs values f := by
  have hsum : ((pairs.zip values).map (trueContrib options f)).sum =
      trueSum pairs values f :=
    map_trueContrib_eq_trueSum options f pairs values hf hdist
  rw [build_true_values, build_foldl_eq_dictAddAll, dictGet_dictAddAll]
  have hnil : dictGet ([] : List (String × ℤ)) f = none := rfl
  rw [hnil]
  by_cases hany : (trueEvents options (pairs.zip values)).any
      (fun e => e.1 == f) = true
  · rw [if_pos hany]
    rw [Option.getD_some, sumFor_trueEvents, hsum]
  · rw [if_neg hany, Option.getD_none]
    have hany' : (trueEvents options (pairs.zip values)).any
        (fun e => e.1 == f) = false := Bool.eq_false_iff.mpr hany
    have hfilter : (trueEvents options (pairs.zip values)).filter
        (fun e => e.1 == f) = [] :=
      List.filter_eq_nil_iff.mpr (List.any_eq_false.mp hany')
    have h0 : sumFor f (trueEvents options (pairs.zip values)) = 0 := by
      rw [sumFor, hfilter]
      rfl
    rw [sumFor_trueEvents, hsum] at h0
    exact h0.symm

/-- The second component of a feature-based decision is always the constant
response time 2. -/
theorem fbDecide_snd (m : FeatureBasedModel) (offer_feature : String × String)
    (u : ℚ) :
    (m.decide offer_feature u).2 = 2 := by
  rw [FeatureBasedModel.decide]
  cases h1 : dictGet m.feature_values offer_feature.1 with
  | some v => rfl
  | none =>
    cases h2 : dictGet m.feature_values offer_feature.2 with
    | some v => rfl
    | none => rfl

/-- The rows a trial produces at position `k`: both rows carry the `k`-th
option feature and its `true_values` reading, the episodic row carries the
episodic decision's four outputs, and the feature row carries the feature
decision's choice and constant response time together with the episodic
decision's summed value in its `recalled_value` field. -/
theorem simulate_trial_row_spec (ep0 : EpisodicModel) (beta : ℚ) (game : Game)
    (game_number : ℕ) (rnd : TrialRand) (k : ℕ)
    (hk : k < game.Options.length) :
    ((simulate_trial ep0 beta game game_number rnd).1.getD k default) =
      { model := "episodic", feature := game.Options.getD k "",
        choice := ((epTrialModel ep0 game).decide (game.Options.getD k "", "")
          (rnd.epOrder k) (rnd.epStop k) (rnd.epNoise k)).1,
        rt := ((epTrialModel ep0 game).decide (game.Options.getD k "", "")
          (rnd.epOrder k) (rnd.epStop k) (rnd.epNoise k)).2.1,
        n_memories := ((epTrialModel ep0 game).decide (game.Options.getD k "", "")
          (rnd.epOrder k) (rnd.epStop k) (rnd.epNoise k)).2.2.1,
        true_value := (dictGet (build_true_values game.Options game.Pairs
          game.Values) (game.Options.getD k "")).getD 0,
        recalled_value := ((epTrialModel ep0 game).decide
          (game.Options.getD k "", "") (rnd.epOrder k) (rnd.epStop k)
          (rnd.epNoise k)).2.2.2,
        game_number := game_number } ∧
    ((simulate_trial ep0 beta game game_number rnd).2.getD k default) =
      { model := "feature", feature := game.Options.getD k "",
        choice := ((fbTrialModel beta game).decide (game.Options.getD k "", "")
          (rnd.fbDraw k)).1,
        rt := ((fbTrialModel beta game).decide (game.Options.getD k "", "")
          (rnd.fbDraw k)).2,
        true_value := (dictGet (build_true_values game.Options game.Pairs
          game.Values) (game.Options.getD k "")).getD 0,
        recalled_value := ((epTrialModel ep0 game).decide
          (game.Options.getD k "", "") (rnd.epOrder k) (rnd.epStop k)
          (rnd.epNoise k)).2.2.2,
        game_number := game_number } := by
  constructor
  · rw [simulate_trial]
    dsimp only
    rw [List.getD_eq_getElem _ _ (by simpa using hk)]
    simp only [List.getElem_map, List.getElem_range]
  · rw [simulate_trial]
    dsimp only
    rw [List.getD_eq_getElem _ _ (by simpa using hk)]
    simp only [List.getElem_map, List.getElem_range]

/-- A trial produces one episodic row and one feature row per option
feature. -/
theorem simulate_trial_lengths (ep0 : EpisodicModel) (beta : ℚ) (game : Game)
    (game_number : ℕ) (rnd : TrialRand) :
    (simulate_trial ep0 beta game game_number rnd).1.length =
      game.Options.length ∧
    (simulate_trial ep0 beta game game_number rnd).2.length =
      game.Options.length := by
  rw [simulate_trial]
  dsimp only
  constructor <;> simp

/-- Membership gives a positive `contains` test. -/
theorem contains_of_mem {w : String} {l : List String} (h : w ∈ l) :
    l.contains w = true := by
  induction l with
  | nil => simp at h
  | cons a l ih =>
    rcases List.mem_cons.mp h with rfl | h'
    · simp [List.contains_cons]
    · rw [List.contains_cons, ih h', Bool.or_true]

/-- Shape of every game of a well-formed table: three decision options and
items whose two split words are distinct. -/
theorem initGames_game_shape (n_games curr_stims : ℕ) (mults mtime : List String)
    (tapes : List (List ℤ)) (fuel : ℕ) (games : List (String × Game))
    (hs1 : 1 ≤ curr_stims) (hs2 : curr_stims ≤ 5) (hn : n_games ≤ 8)
    (hm : mults.Perm multiplier_list_base)
    (h : initGames n_games curr_stims mults mtime tapes fuel = some games) :
    ∀ kg ∈ games,
      kg.2.Options.length = 3 ∧
      (∀ p ∈ kg.2.Pairs, (splitItem p).1 ≠ (splitItem p).2) := by
  intro kg hkg
  obtain ⟨j, hj, hkey, hpairs, hvals, hopts, hmult⟩ :=
    initGames_mem_spec n_games curr_stims mults mtime tapes fuel games h kg hkg
  have hj8 : j < 8 := lt_of_lt_of_le hj hn
  obtain ⟨hdeclen, hrows⟩ := dec_row_facts curr_stims hs1 hs2
  have hrowmem : (full_dec_set curr_stims).getD j [] ∈ full_dec_set curr_stims := by
    rw [List.getD_eq_getElem _ _ (by omega)]
    exact List.getElem_mem (by omega)
  obtain ⟨hlc, hlk⟩ := hrows _ hrowmem
  have haxis := mults_axis_cases mults hm j hj8
  constructor
  · rw [hopts, option_list_for]
    rcases haxis with hc | hc
    · rw [if_pos hc]
      exact hlc
    · rw [if_neg (by rw [hc]; decide)]
      exact hlk
  · obtain ⟨hitemlen, hitems⟩ := item_row_facts curr_stims hs1 hs2
    have hitemmem : (full_item_set curr_stims).getD j [] ∈
        full_item_set curr_stims := by
      rw [List.getD_eq_getElem _ _ (by omega)]
      exact List.getElem_mem (by omega)
    intro p hp
    rw [hpairs] at hp
    exact hitems _ hitemmem p hp
/-! ## Claims -/

/-- C1: every value set returned by `generate_values_set` for size 6 (from any
tape of `randint(-2, 2)` draws, with any retry budget) has exactly 3 positive
and 3 negative entries, every entry lies in {-2, -1, 1, 2} (never 0), at
least one of the six checked partial sums is strictly negative, at least one
is strictly positive, and none of the six is zero. -/
theorem c1_values_set_valid (fuel : ℕ) (tape : List ℤ) (vs : List ℤ)
    (htape : ∀ d ∈ tape, -2 ≤ d ∧ d ≤ 2)
    (h : generate_values_set fuel tape 6 = some vs) :
    vs.length = 6 ∧
    (vs.filter (fun v => decide (0 < v))).length = 3 ∧
    (vs.filter (fun v => decide (v < 0))).length = 3 ∧
    (∀ v ∈ vs, v = -2 ∨ v = -1 ∨ v = 1 ∨ v = 2) ∧
    (∃ s ∈ check_sums vs, s < 0) ∧
    (∃ s ∈ check_sums vs, 0 < s) ∧
    (∀ s ∈ check_sums vs, s ≠ 0) := by
  induction fuel generalizing tape with
  | zero => simp [generate_values_set] at h
  | succ fuel ih =>
    rw [generate_values_set] at h
    split at h
    · exact absurd h (by simp)
    · rename_i values_set rest heq
      split_ifs at h with hvalid
      · have hvs : values_set = vs := Option.some.inj h
        subst hvs
        obtain ⟨hlen, hmem, _⟩ :=
          genSubArrayAux_spec tape 6 [] values_set rest heq
        have hmem' : ∀ v ∈ values_set, v = -2 ∨ v = -1 ∨ v = 1 ∨ v = 2 := by
          intro v hvv
          rcases hmem v hvv with h0 | ⟨ht2, hnz⟩
          · simp at h0
          · have := htape v ht2
            omega
        have hnz : ∀ v ∈ values_set, v ≠ 0 := by
          intro v hvv
          rcases hmem' v hvv with rfl | rfl | rfl | rfl <;> decide
        have hpart := filter_pos_neg_length values_set hnz
        obtain ⟨hp, hq, hc1, hc2, hc3⟩ := is_valid_spec values_set hvalid
        have hlen6 : values_set.length = 6 := by simpa using hlen
        refine ⟨hlen6, by omega, by omega, hmem', hc1, hc2, hc3⟩
      · obtain ⟨_, _, hrest⟩ :=
          genSubArrayAux_spec tape 6 [] values_set rest heq
        exact ih rest (fun d hd => htape d (hrest d hd)) h

/-- C1 witness: the theorem applied to the concrete tape [2, 1, -1, 1, -2, -2],
on which the generator returns that very value set. -/
theorem c1_values_set_valid_witness :
    ([2, 1, -1, 1, -2, -2] : List ℤ).length = 6 ∧
    (([2, 1, -1, 1, -2, -2] : List ℤ).filter (fun v => decide (0 < v))).length = 3 ∧
    (([2, 1, -1, 1, -2, -2] : List ℤ).filter (fun v => decide (v < 0))).length = 3 ∧
    (∀ v ∈ ([2, 1, -1, 1, -2, -2] : List ℤ), v = -2 ∨ v = -1 ∨ v = 1 ∨ v = 2) ∧
    (∃ s ∈ check_sums [2, 1, -1, 1, -2, -2], s < 0) ∧
    (∃ s ∈ check_sums [2, 1, -1, 1, -2, -2], 0 < s) ∧
    (∀ s ∈ check_sums [2, 1, -1, 1, -2, -2], s ≠ 0) :=
  c1_values_set_valid 1 [2, 1, -1, 1, -2, -2] [2, 1, -1, 1, -2, -2]
    (by decide) (by decide)

/-- C9: the acceptance predicate of the rejection-sampling loop is satisfiable
by an array of 6 values from {-2, -1, 1, 2} (so the unbounded retry loop can
terminate, as the concrete one-candidate run shows), and whenever the loop
returns at all it returns an accepted set — it is never capped in a way that
could return a non-conforming set. -/
theorem c9_rejection_sampling :
    (∃ vs : List ℤ, vs.length = 6 ∧
      (∀ v ∈ vs, v = -2 ∨ v = -1 ∨ v = 1 ∨ v = 2) ∧
      is_valid_values_set vs 6 = true) ∧
    (∀ (fuel : ℕ) (tape : List ℤ) (vs : List ℤ),
      generate_values_set fuel tape 6 = some vs →
      is_valid_values_set vs 6 = true) ∧
    generate_values_set 1 [2, 1, -1, 1, -2, -2] 6 =
      some [2, 1, -1, 1, -2, -2] :=
  ⟨⟨[2, 1, -1, 1, -2, -2], by decide, by decide, by decide⟩,
   fun fuel tape vs h => generate_values_set_valid fuel tape 6 vs h,
   by decide⟩

/-- C9 witness: the second conjunct applied to the concrete terminating run. -/
theorem c9_rejection_sampling_witness :
    is_valid_values_set [2, 1, -1, 1, -2, -2] 6 = true :=
  c9_rejection_sampling.2.1 1 [2, 1, -1, 1, -2, -2] [2, 1, -1, 1, -2, -2]
    (by decide)

/-- C2 counterexample: a concrete full run of the game initialiser
(configuration 1, unshuffled multiplier lists, a valid draw tape for every
game) produces an Options list of length 3 for every one of the eight games —
not 6 as claimed. -/
theorem c2_counterexample :
    (initGames 8 1 multiplier_list_base multiplier_time_1 tapes8 1).map
      (fun games => games.map (fun kg => (kg.1, kg.2.Options.length))) =
      some [("1", 3), ("2", 3), ("3", 3), ("4", 3), ("5", 3), ("6", 3),
            ("7", 3), ("8", 3)] ∧
    (3 : ℕ) ≠ 6 :=
  ⟨by decide, by decide⟩

/-- C2 (amended): for every game in a table produced by the game initialiser
(valid configuration draw, axis list a permutation of the base list), the
game's Options list has length 3 — each decision row carries three words of
each axis and the four opposing-axis words are filtered out — and it contains
no color word when the game's multiplier axis is Category and no category
word when the axis is Color. -/
theorem c2_options_filtered (n_games curr_stims : ℕ) (mults mtime : List String)
    (tapes : List (List ℤ)) (fuel : ℕ) (games : List (String × Game))
    (hs1 : 1 ≤ curr_stims) (hs2 : curr_stims ≤ 5) (hn : n_games ≤ 8)
    (hm : mults.Perm multiplier_list_base)
    (h : initGames n_games curr_stims mults mtime tapes fuel = some games) :
    ∀ kg ∈ games,
      kg.2.Options.length = 3 ∧
      (kg.2.Multiplier.getD 0 "" = "Category" →
        ∀ w ∈ kg.2.Options, ¬ w ∈ color_words) ∧
      (kg.2.Multiplier.getD 0 "" = "Color" →
        ∀ w ∈ kg.2.Options, ¬ w ∈ category_words) := by
  intro kg hkg
  obtain ⟨j, hj, hkey, hpairs, hvals, hopts, hmult⟩ :=
    initGames_mem_spec n_games curr_stims mults mtime tapes fuel games h kg hkg
  have hj8 : j < 8 := lt_of_lt_of_le hj hn
  obtain ⟨hdeclen, hrows⟩ := dec_row_facts curr_stims hs1 hs2
  have hrowmem : (full_dec_set curr_stims).getD j [] ∈ full_dec_set curr_stims := by
    rw [List.getD_eq_getElem _ _ (by omega)]
    exact List.getElem_mem (by omega)
  obtain ⟨hlc, hlk⟩ := hrows _ hrowmem
  have haxis := mults_axis_cases mults hm j hj8
  have hax : kg.2.Multiplier.getD 0 "" = mults.getD j "" := by
    rw [hmult]
    rfl
  refine ⟨?_, ?_, ?_⟩
  · rw [hopts, option_list_for]
    rcases haxis with hc | hc
    · rw [if_pos hc]
      exact hlc
    · rw [if_neg (by rw [hc]; decide)]
      exact hlk
  · intro hcat w hw
    rw [hax] at hcat
    rw [hopts, option_list_for, if_pos hcat] at hw
    have hpw := List.of_mem_filter hw
    simpa using hpw
  · intro hcol w hw
    rw [hax] at hcol
    rw [hopts, option_list_for, if_neg (by rw [hcol]; decide)] at hw
    have hpw := List.of_mem_filter hw
    simpa using hpw

/-- C2 witness: the amended theorem applied to the concrete table, read at
game "1". -/
theorem c2_options_filtered_witness :
    (gamesW.getD 0 default).2.Options.length = 3 :=
  (c2_options_filtered 8 1 multiplier_list_base multiplier_time_1 tapes8 1
    gamesW (by decide) (by decide) (by decide) (List.Perm.refl _) (by decide)
    (gamesW.getD 0 default) (by decide)).1

/-- C3: the source decide procedure coincides with the specification-level
loop — for each drawn index first the stop check with threshold
`p_stop * (recalled_count + 1)`, then the strict time check (a recall landing
exactly at the limit is committed, one strictly above is rejected), then the
commit that adds the recall time, bumps the count and adds reward plus noise
on a feature match — and it returns choice 1 exactly when the summed value is
strictly positive, along with elapsed time, recalled count and summed
value. -/
theorem c3_decide_follows_spec (m : EpisodicModel)
    (offer_feature : String × String) (recall_order : List ℕ)
    (stopDraw noiseDraw : ℕ → ℚ) :
    m.decide offer_feature recall_order stopDraw noiseDraw =
      epDecideSpec m offer_feature recall_order stopDraw noiseDraw ∧
    (m.decide offer_feature recall_order stopDraw noiseDraw).1 =
      (if 0 < (m.decide offer_feature recall_order stopDraw noiseDraw).2.2.2
       then 1 else 0) := by
  have h := decideLoop_eq_spec m offer_feature stopDraw noiseDraw recall_order
    m.non_decision_time 0 0 0 0
  constructor
  · rw [EpisodicModel.decide, epDecideSpec]
    rw [← h]
  · rfl

/-- C4 counterexample: with non-decision time 10, recall time 1 and max
decision time 5 (and no episodes), decide returns elapsed time 10, strictly
above max decision time plus one recall increment (6) — the claimed bound
fails for this parameterisation. -/
theorem c4_counterexample :
    (epBad.decide ("Food", "") [] (fun _ => 1) (fun _ => 0)).2.1 = 10 ∧
    epBad.max_decision_time + epBad.recall_time = 6 ∧
    ¬ ((10 : ℚ) ≤ 6) :=
  ⟨rfl, by norm_num [epBad], by norm_num⟩

/-- C4 (amended): for every episode collection and every parameterisation
with nonnegative recall time whose non-decision time does not already exceed
the decision budget plus one recall increment (the orchestrator's
configuration satisfies both), the elapsed time returned by decide is at
least the non-decision time and at most max decision time plus one
recall-time increment. -/
theorem c4_elapsed_bounds (m : EpisodicModel) (offer_feature : String × String)
    (recall_order : List ℕ) (stopDraw noiseDraw : ℕ → ℚ)
    (hrt : 0 ≤ m.recall_time)
    (hnd : m.non_decision_time ≤ m.max_decision_time + m.recall_time) :
    m.non_decision_time ≤
      (m.decide offer_feature recall_order stopDraw noiseDraw).2.1 ∧
    (m.decide offer_feature recall_order stopDraw noiseDraw).2.1 ≤
      m.max_decision_time + m.recall_time := by
  obtain ⟨hlow, hcase⟩ := decideLoop_elapsed_bounds m offer_feature stopDraw
    noiseDraw hrt recall_order 0 0 m.non_decision_time 0 0
  have heq : (m.decide offer_feature recall_order stopDraw noiseDraw).2.1 =
      (m.decideLoop offer_feature stopDraw noiseDraw recall_order 0 0
        m.non_decision_time 0 0).1 := rfl
  rw [heq]
  refine ⟨hlow, ?_⟩
  rcases hcase with he | hb
  · rw [he]
    exact hnd
  · linarith

/-- C4 witness: the amended bounds at the orchestrator's configuration. -/
theorem c4_elapsed_bounds_witness :
    episodicDefault.non_decision_time ≤
      (episodicDefault.decide ("Food", "") [] (fun _ => 1) (fun _ => 0)).2.1 ∧
    (episodicDefault.decide ("Food", "") [] (fun _ => 1) (fun _ => 0)).2.1 ≤
      episodicDefault.max_decision_time + episodicDefault.recall_time :=
  c4_elapsed_bounds episodicDefault ("Food", "") [] (fun _ => 1) (fun _ => 0)
    (by norm_num [episodicDefault]) (by norm_num [episodicDefault])
/-- C5 counterexample: a concrete full run of the trial orchestrator's body
(fresh table, sampled game 1, the orchestrator's model parameters) produces 3
episodic rows and 3 feature rows — one per decision-option feature — not 6 of
each. -/
theorem c5_counterexample :
    (simulate_trial_run episodicDefault 5 1 multiplier_list_base
      multiplier_time_1 tapes8 1 1 rnd0).map
      (fun r => (r.1.length, r.2.length)) = some (3, 3) ∧
    ((3 : ℕ), (3 : ℕ)) ≠ (6, 6) :=
  ⟨by decide, by decide⟩

/-- C5 (amended): one trial of the orchestrator over a well-formed table
produces exactly 3 episodic result rows and 3 feature result rows — one per
decision-option feature of the sampled game, in option order — and the
true_value field of every row equals the independently recomputed sum of the
rewards of the sampled game's items whose type or color word equals that
row's feature. -/
theorem c5_trial_rows (ep0 : EpisodicModel) (beta : ℚ) (curr_stims : ℕ)
    (mults mtime : List String) (tapes : List (List ℤ)) (fuel : ℕ)
    (game_number : ℕ) (rnd : TrialRand) (games : List (String × Game))
    (game : Game)
    (hs1 : 1 ≤ curr_stims) (hs2 : curr_stims ≤ 5)
    (hm : mults.Perm multiplier_list_base)
    (h : initGames 8 curr_stims mults mtime tapes fuel = some games)
    (hg : dictGet games (toString game_number) = some game) :
    simulate_trial_run ep0 beta curr_stims mults mtime tapes fuel game_number
      rnd = some (simulate_trial ep0 beta game game_number rnd) ∧
    (simulate_trial ep0 beta game game_number rnd).1.length = 3 ∧
    (simulate_trial ep0 beta game game_number rnd).2.length = 3 ∧
    (∀ k, k < 3 →
      ((simulate_trial ep0 beta game game_number rnd).1.getD k default).feature =
        game.Options.getD k "" ∧
      ((simulate_trial ep0 beta game game_number rnd).1.getD k default).true_value =
        trueSum game.Pairs game.Values (game.Options.getD k "") ∧
      ((simulate_trial ep0 beta game game_number rnd).2.getD k default).true_value =
        trueSum game.Pairs game.Values (game.Options.getD k "")) := by
  have hmem : (toString game_number, game) ∈ games := dictGet_mem games _ _ hg
  obtain ⟨hoptlen0, hdist0⟩ := initGames_game_shape 8 curr_stims mults mtime
    tapes fuel games hs1 hs2 (le_refl 8) hm h (toString game_number, game) hmem
  have hoptlen : game.Options.length = 3 := hoptlen0
  have hdist : ∀ p ∈ game.Pairs, (splitItem p).1 ≠ (splitItem p).2 := hdist0
  obtain ⟨hlen1, hlen2⟩ :=
    simulate_trial_lengths ep0 beta game game_number rnd
  refine ⟨?_, ?_, ?_, ?_⟩
  · simp only [simulate_trial_run, h, hg]
  · rw [hlen1]
    exact hoptlen
  · rw [hlen2]
    exact hoptlen
  · intro k hk
    have hk' : k < game.Options.length := by omega
    obtain ⟨h1, h2⟩ := simulate_trial_row_spec ep0 beta game game_number rnd k hk'
    have hfmem : game.Options.getD k "" ∈ game.Options := by
      rw [List.getD_eq_getElem _ _ hk']
      exact List.getElem_mem hk'
    have htv := true_value_lookup game.Options game.Pairs game.Values
      (game.Options.getD k "") (contains_of_mem hfmem) hdist
    rw [h1, h2]
    exact ⟨rfl, htv, htv⟩

/-- C5 witness: the amended theorem at the concrete table and sampled game. -/
theorem c5_trial_rows_witness :
    (simulate_trial episodicDefault 5 gameW 1 rnd0).1.length = 3 ∧
    (simulate_trial episodicDefault 5 gameW 1 rnd0).2.length = 3 :=
  ⟨(c5_trial_rows episodicDefault 5 1 multiplier_list_base multiplier_time_1
      tapes8 1 1 rnd0 gamesW gameW (by decide) (by decide) (List.Perm.refl _)
      (by decide) (by decide)).2.1,
   (c5_trial_rows episodicDefault 5 1 multiplier_list_base multiplier_time_1
      tapes8 1 1 rnd0 gamesW gameW (by decide) (by decide) (List.Perm.refl _)
      (by decide) (by decide)).2.2.1⟩

/-- C6 counterexample: encoding the single episode (("Food", "Food"), 1),
whose feature pair contains "Food", stores the value 2 for "Food", while the
sum of rewards over all encoded episodes whose pair contains "Food" is 1. -/
theorem c6_counterexample :
    dictGet ((FeatureBasedModel.encodeAll
      { beta := 1, feature_values := [] } [dupEpisode]).feature_values)
      "Food" = some 2 ∧
    plainRewardSum "Food" [dupEpisode] = 1 ∧
    ¬ ((2 : ℚ) = 1) := by
  refine ⟨?_, ?_, by norm_num⟩
  · show dictGet (dictAdd (dictAdd [] "Food" 1) "Food" 1) "Food" = some 2
    norm_num [dictAdd, dictGet]
  · show plainRewardSum "Food" [dupEpisode] = 1
    simp [plainRewardSum, dupEpisode]

/-- C6 (amended): after encoding any episode sequence into the empty map, the
value stored for a feature F is the sum over encoded episodes of the reward
counted once per slot of the episode's feature pair equal to F (and no entry
exists when no pair contains F); when every episode's two features are
distinct — true of every episode the orchestrator encodes — that sum is
exactly the sum of rewards over the episodes whose pair contains F; and the
accumulation is order-independent: encoding any permutation of the episodes
yields the same stored value at every feature. -/
theorem c6_encode_accumulates (beta : ℚ) (episodes : List Episode) (F : String) :
    (dictGet ((FeatureBasedModel.encodeAll
        { beta := beta, feature_values := [] } episodes).feature_values) F =
      (if episodes.any (fun e =>
          e.item_features.1 == F || e.item_features.2 == F) = true then
        some ((episodes.map (fun e =>
          (if e.item_features.1 = F then e.reward else 0) +
          (if e.item_features.2 = F then e.reward else 0))).sum)
      else none)) ∧
    ((∀ e ∈ episodes, e.item_features.1 ≠ e.item_features.2) →
      (episodes.map (fun e =>
        (if e.item_features.1 = F then e.reward else 0) +
        (if e.item_features.2 = F then e.reward else 0))).sum =
      plainRewardSum F episodes) ∧
    (∀ episodes2 : List Episode, episodes.Perm episodes2 →
      dictGet ((FeatureBasedModel.encodeAll
        { beta := beta, feature_values := [] } episodes).feature_values) F =
      dictGet ((FeatureBasedModel.encodeAll
        { beta := beta, feature_values := [] } episodes2).feature_values) F) := by
  have hchar : ∀ l : List Episode,
      dictGet ((FeatureBasedModel.encodeAll
        { beta := beta, feature_values := [] } l).feature_values) F =
      (if l.any (fun e =>
          e.item_features.1 == F || e.item_features.2 == F) = true then
        some ((l.map (fun e =>
          (if e.item_features.1 = F then e.reward else 0) +
          (if e.item_features.2 = F then e.reward else 0))).sum)
      else none) := by
    intro l
    rw [encodeAll_feature_values, dictGet_dictAddAll]
    have hnil : dictGet ([] : List (String × ℚ)) F = none := rfl
    rw [hnil, any_epEvents, sumFor_epEvents]
  refine ⟨hchar episodes, ?_, ?_⟩
  · intro hdist
    rw [plainRewardSum, ← sum_ite_eq_sum_filter
      (fun e : Episode => e.item_features.1 == F || e.item_features.2 == F)
      (fun e : Episode => e.reward) episodes]
    apply congrArg List.sum
    apply List.map_congr_left
    intro e he
    have hd := hdist e he
    by_cases h1 : e.item_features.1 = F
    · have h2 : e.item_features.2 ≠ F := fun hh => hd (h1.trans hh.symm)
      rw [if_pos h1, if_neg h2, add_zero, if_pos (by simp [h1])]
    · by_cases h2 : e.item_features.2 = F
      · rw [if_neg h1, if_pos h2, zero_add, if_pos (by simp [h2])]
      · rw [if_neg h1, if_neg h2, add_zero, if_neg (by simp [h1, h2])]
  · intro episodes2 hpm
    rw [hchar episodes, hchar episodes2]
    have hany := perm_any hpm (fun e : Episode =>
      e.item_features.1 == F || e.item_features.2 == F)
    have hsum := (hpm.map (fun e : Episode =>
      (if e.item_features.1 = F then e.reward else 0) +
      (if e.item_features.2 = F then e.reward else 0))).sum_eq
    rw [hany, hsum]

/-- C6 witness: the amended theorem on two concrete distinct-feature episodes
and the swap permutation. -/
theorem c6_encode_accumulates_witness :
    ((([epFoodBlue, epObjectRed] : List Episode).map (fun e =>
        (if e.item_features.1 = "Food" then e.reward else 0) +
        (if e.item_features.2 = "Food" then e.reward else 0))).sum =
      plainRewardSum "Food" [epFoodBlue, epObjectRed]) ∧
    dictGet ((FeatureBasedModel.encodeAll { beta := 1, feature_values := [] }
      [epFoodBlue, epObjectRed]).feature_values) "Food" =
    dictGet ((FeatureBasedModel.encodeAll { beta := 1, feature_values := [] }
      [epObjectRed, epFoodBlue]).feature_values) "Food" :=
  ⟨(c6_encode_accumulates 1 [epFoodBlue, epObjectRed] "Food").2.1 (by decide),
   (c6_encode_accumulates 1 [epFoodBlue, epObjectRed] "Food").2.2
     [epObjectRed, epFoodBlue] (List.Perm.swap _ _ _)⟩

/-- C7: with stop probability 0 (and nonnegative uniform stop draws), zero
recall noise, nonnegative recall time and a decision budget wide enough to
admit every stored episode, decide on the offer (F, "") commits every stored
episode regardless of the drawn recall order, takes one recall time per
episode, and returns as summed value the exact arithmetic sum of rewards of
the episodes whose feature pair contains F — for episodes with nonempty
feature words, the empty-string second slot of the offer never matches. -/
theorem c7_full_recall (m : EpisodicModel) (F : String) (recall_order : List ℕ)
    (stopDraw noiseDraw : ℕ → ℚ)
    (hp : m.p_stop = 0) (hsd : ∀ t, 0 ≤ stopDraw t)
    (hrn : m.recall_noise = 0) (hrt : 0 ≤ m.recall_time)
    (htime : m.non_decision_time + m.episodes.length * m.recall_time ≤
      m.max_decision_time)
    (hord : recall_order.Perm (List.range m.episodes.length))
    (hne : ∀ ep ∈ m.episodes,
      ep.item_features.1 ≠ "" ∧ ep.item_features.2 ≠ "") :
    (m.decide (F, "") recall_order stopDraw noiseDraw).2.2.1 =
      m.episodes.length ∧
    (m.decide (F, "") recall_order stopDraw noiseDraw).2.1 =
      m.non_decision_time + m.episodes.length * m.recall_time ∧
    (m.decide (F, "") recall_order stopDraw noiseDraw).2.2.2 =
      (m.episodes.map (fun ep =>
        if ep.item_features.1 = F ∨ ep.item_features.2 = F
        then ep.reward else 0)).sum := by
  have hlen : recall_order.length = m.episodes.length := by
    rw [hord.length_eq, List.length_range]
  have htime' : m.non_decision_time +
      recall_order.length * m.recall_time ≤ m.max_decision_time := by
    rw [hlen]
    exact htime
  have hloop := decideLoop_no_stop m (F, "") stopDraw noiseDraw hp hsd hrn hrt
    recall_order 0 0 m.non_decision_time 0 0 htime'
  have hmapeq : ∀ ep ∈ m.episodes,
      (if offerMatches (F, "") ep.item_features = true
       then ep.reward else 0) =
      (if ep.item_features.1 = F ∨ ep.item_features.2 = F
       then ep.reward else 0) := by
    intro ep hep
    rw [offerMatches_empty_snd F ep.item_features (hne ep hep).1 (hne ep hep).2]
    have hb : ((F == ep.item_features.1 || F == ep.item_features.2) = true) ↔
        (ep.item_features.1 = F ∨ ep.item_features.2 = F) := by
      rw [Bool.or_eq_true, beq_iff_eq, beq_iff_eq]
      constructor
      · rintro (hh | hh)
        · exact Or.inl hh.symm
        · exact Or.inr hh.symm
      · rintro (hh | hh)
        · exact Or.inl hh.symm
        · exact Or.inr hh.symm
    by_cases hcase : ep.item_features.1 = F ∨ ep.item_features.2 = F
    · rw [if_pos (hb.mpr hcase), if_pos hcase]
    · rw [if_neg (fun hh => hcase (hb.mp hh)), if_neg hcase]
  refine ⟨?_, ?_, ?_⟩
  · show (m.decideLoop (F, "") stopDraw noiseDraw recall_order 0 0
      m.non_decision_time 0 0).2.1 = m.episodes.length
    rw [hloop]
    simpa using hlen
  · show (m.decideLoop (F, "") stopDraw noiseDraw recall_order 0 0
      m.non_decision_time 0 0).1 =
      m.non_decision_time + m.episodes.length * m.recall_time
    rw [hloop, hlen]
  · show (m.decideLoop (F, "") stopDraw noiseDraw recall_order 0 0
      m.non_decision_time 0 0).2.2 =
      (m.episodes.map (fun ep =>
        if ep.item_features.1 = F ∨ ep.item_features.2 = F
        then ep.reward else 0)).sum
    rw [hloop]
    show 0 + (recall_order.map (fun idx =>
      if offerMatches (F, "")
          ((m.episodes.getD idx default).item_features) = true
      then (m.episodes.getD idx default).reward else 0)).sum = _
    rw [zero_add]
    calc (recall_order.map (fun idx =>
          if offerMatches (F, "")
              ((m.episodes.getD idx default).item_features) = true
          then (m.episodes.getD idx default).reward else 0)).sum
        = ((List.range m.episodes.length).map (fun idx =>
          if offerMatches (F, "")
              ((m.episodes.getD idx default).item_features) = true
          then (m.episodes.getD idx default).reward else 0)).sum :=
          (hord.map _).sum_eq
      _ = (m.episodes.map (fun ep =>
          if offerMatches (F, "") ep.item_features = true
          then ep.reward else 0)).sum :=
          range_map_getD_sum (fun ep =>
            if offerMatches (F, "") ep.item_features = true
            then ep.reward else 0) m.episodes
      _ = (m.episodes.map (fun ep =>
          if ep.item_features.1 = F ∨ ep.item_features.2 = F
          then ep.reward else 0)).sum :=
          congrArg List.sum (List.map_congr_left hmapeq)

/-- C7 witness: the theorem on a concrete two-episode store with the reversed
recall order. -/
theorem c7_full_recall_witness :
    (epC7.decide ("Food", "") [1, 0] (fun _ => 1) (fun _ => 0)).2.2.1 =
      epC7.episodes.length ∧
    (epC7.decide ("Food", "") [1, 0] (fun _ => 1) (fun _ => 0)).2.1 =
      epC7.non_decision_time + epC7.episodes.length * epC7.recall_time ∧
    (epC7.decide ("Food", "") [1, 0] (fun _ => 1) (fun _ => 0)).2.2.2 =
      (epC7.episodes.map (fun ep =>
        if ep.item_features.1 = "Food" ∨ ep.item_features.2 = "Food"
        then ep.reward else 0)).sum :=
  c7_full_recall epC7 "Food" [1, 0] (fun _ => 1) (fun _ => 0)
    rfl (fun _ => by norm_num) rfl (by norm_num [epC7])
    (by norm_num [epC7]) (by decide) (by decide)

/-- C8: the feature-based decide examines the offer pair's two elements in
order — it returns (logistic choice on the value, 2) at the first element
present in the feature map, ignoring any match on the second element when the
first matched; it returns (0, 2) when neither element is a known feature; its
second component is always the constant 2; and the logistic choice draws 1
exactly when the uniform draw is below 1 / (1 + exp(-beta * value)). -/
theorem c8_fb_decide_first_match (m : FeatureBasedModel)
    (offer_feature : String × String) (u : ℚ) :
    (∀ v, dictGet m.feature_values offer_feature.1 = some v →
      m.decide offer_feature u = (logisticChoice m.beta v u, 2)) ∧
    (dictGet m.feature_values offer_feature.1 = none →
      ∀ v, dictGet m.feature_values offer_feature.2 = some v →
        m.decide offer_feature u = (logisticChoice m.beta v u, 2)) ∧
    (dictGet m.feature_values offer_feature.1 = none →
      dictGet m.feature_values offer_feature.2 = none →
      m.decide offer_feature u = (0, 2)) ∧
    ((m.decide offer_feature u).2 = 2) ∧
    (∀ beta value : ℚ, logisticChoice beta value u =
      if (u : ℝ) < 1 / (1 + Real.exp (-(beta : ℝ) * (value : ℝ)))
      then 1 else 0) := by
  refine ⟨?_, ?_, ?_, fbDecide_snd m offer_feature u, fun beta value => rfl⟩
  · intro v hv
    rw [FeatureBasedModel.decide, hv]
  · intro h1 v hv
    rw [FeatureBasedModel.decide, h1, hv]
  · intro h1 h2
    rw [FeatureBasedModel.decide, h1, h2]

/-- C8 witness: the first-match rule on a concrete map holding both offer
elements — the first element's value (3) is used. -/
theorem c8_fb_decide_first_match_witness :
    dictGet [("Food", (3 : ℚ)), ("Blue", -2)] "Food" = some 3 ∧
    ({ beta := 5, feature_values := [("Food", 3), ("Blue", -2)] } :
      FeatureBasedModel).decide ("Food", "Blue") 0 = (logisticChoice 5 3 0, 2) :=
  ⟨by decide,
   (c8_fb_decide_first_match
     { beta := 5, feature_values := [("Food", 3), ("Blue", -2)] }
     ("Food", "Blue") 0).1 3 (by decide)⟩

/-- C10: in every feature-model row of a trial, the recalled_value field
equals the summed value returned by the episodic model's decide call for the
same feature of the same trial (and so equals the episodic row's
recalled_value), while the feature-based model contributes only its choice
and the constant response time 2. -/
theorem c10_feature_row_recalled_value (ep0 : EpisodicModel) (beta : ℚ)
    (game : Game) (game_number : ℕ) (rnd : TrialRand) (k : ℕ)
    (hk : k < game.Options.length) :
    ((simulate_trial ep0 beta game game_number rnd).2.getD k
        default).recalled_value =
      ((epTrialModel ep0 game).decide (game.Options.getD k "", "")
        (rnd.epOrder k) (rnd.epStop k) (rnd.epNoise k)).2.2.2 ∧
    ((simulate_trial ep0 beta game game_number rnd).2.getD k
        default).recalled_value =
      ((simulate_trial ep0 beta game game_number rnd).1.getD k
        default).recalled_value ∧
    ((simulate_trial ep0 beta game game_number rnd).2.getD k default).choice =
      ((fbTrialModel beta game).decide (game.Options.getD k "", "")
        (rnd.fbDraw k)).1 ∧
    ((simulate_trial ep0 beta game game_number rnd).2.getD k default).rt = 2 := by
  obtain ⟨h1, h2⟩ := simulate_trial_row_spec ep0 beta game game_number rnd k hk
  rw [h1, h2]
  exact ⟨rfl, rfl, rfl, fbDecide_snd _ _ _⟩

/-- C10 witness: the concrete trial's first feature row. -/
theorem c10_feature_row_recalled_value_witness :
    ((simulate_trial episodicDefault 5 gameW 1 rnd0).2.getD 0
        default).recalled_value =
      ((epTrialModel episodicDefault gameW).decide (gameW.Options.getD 0 "", "")
        (rnd0.epOrder 0) (rnd0.epStop 0) (rnd0.epNoise 0)).2.2.2 ∧
    ((simulate_trial episodicDefault 5 gameW 1 rnd0).2.getD 0 default).rt = 2 :=
  ⟨(c10_feature_row_recalled_value episodicDefault 5 gameW 1 rnd0 0
      (by decide)).1,
   (c10_feature_row_recalled_value episodicDefault 5 gameW 1 rnd0 0
      (by decide)).2.2.2⟩
